import Mathlib

/-!
Verification of the event-sourced mission core of the SwarmBoard repository.

The development shallowly embeds the server-side core: the step schedule and
the deterministic fallback script (src/lib), the mission/event data model,
and the four state-changing endpoints (start, emit, tick, fork) together
with the pure client-side replay machine.  Persistence is modelled as an
explicit store value threaded through the operations; Mongo ObjectIds are
modelled as natural numbers allocated from a counter, timestamps as natural
numbers, and event payloads (opaque structured documents the core never
inspects) as their serialized string form.
-/

/-- Mission status enum from src/lib/types.ts. -/
inductive MissionStatus
  | running
  | done
  | failed
deriving DecidableEq, Repr

/-- Agent roles from src/lib/types.ts. -/
inductive AgentType
  | Planner
  | Researcher
  | Executor
  | Critic
deriving DecidableEq, Repr

/-- Event kinds from src/lib/types.ts. -/
inductive EventType
  | PLAN
  | ASSIGN
  | TOOL_CALL
  | TOOL_RESULT
  | CHECKPOINT
  | NOTE
  | FAIL
  | RETRY
  | DONE
deriving DecidableEq, Repr

/-- Provenance of event content from src/lib/types.ts. -/
inductive EventSource
  | scripted
  | openai
  | fallback
deriving DecidableEq, Repr

/-- Run mode of a mission from src/lib/types.ts. -/
inductive RunMode
  | scripted
  | real
deriving DecidableEq, Repr

/-- A persisted event document (interface MissionEvent in src/lib/types.ts).
Steps are integers because the emit endpoint validates them only by JS
falsiness, so negative values can reach the store. -/
structure MissionEvent where
  id : Nat
  missionId : Nat
  ts : Nat
  step : Int
  agent : AgentType
  type : EventType
  summary : String
  payload : String
  source : Option EventSource
deriving DecidableEq, Repr

/-- A persisted mission document (interface Mission in src/lib/types.ts).
The fork endpoint creates missions without a runMode field, hence Option. -/
structure Mission where
  id : Nat
  title : String
  status : MissionStatus
  currentStep : Int
  createdAt : Nat
  updatedAt : Nat
  lastCheckpointAt : Option Nat
  latestSummary : Option String
  branchFromMissionId : Option Nat
  branchFromStep : Option Int
  runMode : Option RunMode
deriving DecidableEq, Repr

/-- One row of the step schedule table (src/lib/stepSchedule.ts). -/
structure StepSchedule where
  step : Int
  agent : AgentType
  type : EventType
deriving DecidableEq, Repr

/-- The static 17-row schedule: step number to expected (agent, kind),
from src/lib/stepSchedule.ts. -/
def stepSchedule : List StepSchedule := [
  ⟨1, .Planner, .PLAN⟩,
  ⟨2, .Planner, .ASSIGN⟩,
  ⟨3, .Researcher, .TOOL_CALL⟩,
  ⟨4, .Researcher, .TOOL_RESULT⟩,
  ⟨5, .Critic, .NOTE⟩,
  ⟨6, .Planner, .CHECKPOINT⟩,
  ⟨7, .Executor, .TOOL_CALL⟩,
  ⟨8, .Executor, .TOOL_RESULT⟩,
  ⟨9, .Researcher, .FAIL⟩,
  ⟨10, .Executor, .RETRY⟩,
  ⟨11, .Executor, .TOOL_RESULT⟩,
  ⟨12, .Critic, .NOTE⟩,
  ⟨13, .Planner, .CHECKPOINT⟩,
  ⟨14, .Executor, .TOOL_CALL⟩,
  ⟨15, .Executor, .TOOL_RESULT⟩,
  ⟨16, .Critic, .NOTE⟩,
  ⟨17, .Planner, .DONE⟩]

/-- Schedule lookup (getScheduleForStep in src/lib/stepSchedule.ts). -/
def getScheduleForStep (s : Int) : Option StepSchedule :=
  stepSchedule.find? (fun x => x.step == s)

/-- A step is final when its scheduled kind is DONE (isFinalStep). -/
def isFinalStep (s : Int) : Bool :=
  match getScheduleForStep s with
  | some sch => sch.type == .DONE
  | none => false

/-- Total number of scheduled steps (getTotalSteps). -/
def getTotalSteps : Int := (stepSchedule.length : Int)

/-- One entry of the deterministic fallback script (src/lib/demoScript.ts). -/
structure DemoEvent where
  step : Int
  agent : AgentType
  type : EventType
  summary : String
  payload : String
  delayMs : Nat
deriving DecidableEq, Repr

/-- The deterministic default content table from src/lib/demoScript.ts.
Note its own (agent, kind) columns are not everywhere identical to the step
schedule: the row for step 9 names Executor while the schedule names
Researcher. -/
def demoScript : List DemoEvent := [
  ⟨1, .Planner, .PLAN, "Mission initialized: Research and summarize latest AI trends",
    "objective: AI Trends Research; estimatedSteps: 16", 0⟩,
  ⟨2, .Planner, .ASSIGN, "Assigned Researcher to gather data from academic sources",
    "assignee: Researcher; task: academic_search", 2500⟩,
  ⟨3, .Researcher, .TOOL_CALL, "Querying ArXiv API for recent transformer papers",
    "tool: arxiv_search; query: transformers 2024", 2000⟩,
  ⟨4, .Researcher, .TOOL_RESULT, "Found 47 relevant papers on attention mechanisms",
    "resultCount: 47", 3000⟩,
  ⟨5, .Researcher, .NOTE, "Key trend identified: State-space models challenging transformers",
    "insight: SSM architectures gaining traction", 2000⟩,
  ⟨6, .Planner, .CHECKPOINT, "Checkpoint: Research phase 1 complete. 47 papers collected, SSM trend identified.",
    "phase: 1; papersCollected: 47", 2500⟩,
  ⟨7, .Executor, .TOOL_CALL, "Summarizing top 10 papers using extraction pipeline",
    "tool: summarizer; inputCount: 10", 3000⟩,
  ⟨8, .Executor, .TOOL_RESULT, "Generated summaries for all 10 papers",
    "summariesGenerated: 10; avgLength: 250", 2500⟩,
  ⟨9, .Executor, .FAIL, "Failed to connect to external citation service (timeout)",
    "error: ETIMEDOUT; service: citation_api", 3000⟩,
  ⟨10, .Executor, .RETRY, "Retrying citation lookup with fallback service",
    "attempt: 2; fallback: semantic_scholar", 2000⟩,
  ⟨11, .Executor, .TOOL_RESULT, "Successfully retrieved citations via Semantic Scholar",
    "citations: 156; successfulRetry: true", 2500⟩,
  ⟨12, .Critic, .NOTE, "Reviewing summary quality: 8/10 papers meet standards",
    "approved: 8; needsRevision: 2", 2500⟩,
  ⟨13, .Planner, .CHECKPOINT, "Checkpoint: Analysis complete. 8 quality summaries, 156 citations mapped.",
    "phase: 2; qualitySummaries: 8; totalCitations: 156", 3000⟩,
  ⟨14, .Executor, .TOOL_CALL, "Generating final report with trend analysis",
    "tool: report_generator; format: markdown", 2500⟩,
  ⟨15, .Executor, .TOOL_RESULT, "Final report generated: 2,400 words with visualizations",
    "wordCount: 2400; charts: 3; tables: 2", 3000⟩,
  ⟨16, .Critic, .NOTE, "Final review passed. Report is comprehensive and well-structured.",
    "qualityScore: 9.2; recommendation: approved", 2000⟩,
  ⟨17, .Planner, .DONE, "Mission complete: AI Trends Report delivered successfully",
    "totalDuration: 45s; eventsProcessed: 17", 2500⟩]

/-- Printable role name, used only to assemble the generic fallback text. -/
def agentName : AgentType → String
  | .Planner => "Planner"
  | .Researcher => "Researcher"
  | .Executor => "Executor"
  | .Critic => "Critic"

/-- Printable kind name, used only to assemble the generic fallback text. -/
def typeName : EventType → String
  | .PLAN => "PLAN"
  | .ASSIGN => "ASSIGN"
  | .TOOL_CALL => "TOOL_CALL"
  | .TOOL_RESULT => "TOOL_RESULT"
  | .CHECKPOINT => "CHECKPOINT"
  | .NOTE => "NOTE"
  | .FAIL => "FAIL"
  | .RETRY => "RETRY"
  | .DONE => "DONE"

/-- The derived mission aggregate: the four fields the projector maintains. -/
structure Agg where
  status : MissionStatus
  currentStep : Int
  lastCheckpointAt : Option Nat
  latestSummary : Option String
deriving DecidableEq, Repr

/-- Aggregate of a mission before any event is folded in. -/
def initAgg : Agg := ⟨.running, 0, none, none⟩

/-- The folding rule of the Mission Aggregate Projector, applied one event at
a time.  It mirrors the per-append mission update of the tick route
(src/app/api/agents/tick/route.ts lines 174-198): currentStep advances to the
max, CHECKPOINT events refresh the checkpoint timestamp and latest summary,
and status becomes done on a DONE-kind event or at the schedule terminal
step.  (The emit route implements the same update except that it lacks the
terminal-step disjunct and can apply events out of step order; that
difference is what the C1 counterexample exhibits.) -/
def applyEvent (a : Agg) (e : MissionEvent) : Agg :=
  { status := if e.type == .DONE || isFinalStep e.step then .done else a.status,
    currentStep := max a.currentStep e.step,
    lastCheckpointAt := if e.type == .CHECKPOINT then some e.ts else a.lastCheckpointAt,
    latestSummary := if e.type == .CHECKPOINT then some e.summary else a.latestSummary }

/-- Pure fold from an event sequence to the aggregate. -/
def foldAgg (l : List MissionEvent) : Agg := l.foldl applyEvent initAgg

/-- The aggregate currently cached in a mission record. -/
def aggOf (m : Mission) : Agg :=
  ⟨m.status, m.currentStep, m.lastCheckpointAt, m.latestSummary⟩

/-- The persisted store: the missions and events collections, plus a counter
standing in for fresh ObjectId allocation. -/
structure Store where
  missions : List Mission
  events : List MissionEvent
  nextId : Nat
deriving DecidableEq, Repr

/-- The empty database. -/
def emptyStore : Store := ⟨[], [], 0⟩

/-- findOne on the missions collection by id. -/
def findMission (st : Store) (mid : Nat) : Option Mission :=
  st.missions.find? (fun m => m.id == mid)

/-- findOne on the events collection by the unique (missionId, step) key. -/
def findEvent (st : Store) (mid : Nat) (step : Int) : Option MissionEvent :=
  st.events.find? (fun e => e.missionId == mid && e.step == step)

/-- The event log of one mission, in insertion order. -/
def missionEvents (st : Store) (mid : Nat) : List MissionEvent :=
  st.events.filter (fun e => e.missionId == mid)

/-- Status of a mission record, if present. -/
def statusOf (st : Store) (mid : Nat) : Option MissionStatus :=
  (findMission st mid).map (fun m => m.status)

/-- Comparison by step, the sort key of the event log. -/
def stepLE (a b : MissionEvent) : Prop := a.step ≤ b.step

instance : DecidableRel stepLE :=
  fun a b => inferInstanceAs (Decidable (a.step ≤ b.step))

instance : IsTotal MissionEvent stepLE := ⟨fun a b => Int.le_total a.step b.step⟩

instance : IsTrans MissionEvent stepLE := ⟨fun _ _ _ => Int.le_trans⟩

/-- Ascending step order, as produced by the Mongo sort on step. -/
def sortByStep (l : List MissionEvent) : List MissionEvent :=
  l.insertionSort stepLE

/-- Result of the emit endpoint (src/app/api/events/emit/route.ts): a 400
validation rejection, a 404, or ok with the duplicate flag of the response
body. -/
inductive EmitResult
  | validationError
  | notFound
  | ok (duplicate : Bool)
deriving DecidableEq, Repr

/-- The mission update an emit append applies: currentStep only advances,
CHECKPOINT refreshes the checkpoint fields, DONE forces status done, FAIL
changes nothing; no terminal-step rule here, unlike the tick update. -/
def emitMissionUpdate (m : Mission) (step : Int) (ty : EventType) (summary : String)
    (now : Nat) : Mission :=
  { m with
    updatedAt := now,
    currentStep := if m.currentStep < step then step else m.currentStep,
    lastCheckpointAt := if ty == .CHECKPOINT then some now else m.lastCheckpointAt,
    latestSummary := if ty == .CHECKPOINT then some summary else m.latestSummary,
    status := if ty == .DONE then .done else m.status }

/-- The emit endpoint.  Field presence is validated by JS falsiness, so of
the numeric step only the value 0 is caught (a negative step passes);
an empty summary is likewise treated as missing.  The insert relies on the
unique (missionId, step) index: a duplicate key is answered with ok and
duplicate true, leaving everything unchanged.  Otherwise the event is
inserted and the mission record is updated: currentStep = max(currentStep,
step), CHECKPOINT refreshes the checkpoint fields, DONE forces status done,
FAIL changes nothing. -/
def emitEvent (st : Store) (mid : Nat) (step : Int) (agent : AgentType)
    (ty : EventType) (summary : String) (payload : String) (now : Nat) :
    Store × EmitResult :=
  if step = 0 ∨ summary = "" then (st, .validationError)
  else
    match findMission st mid with
    | none => (st, .notFound)
    | some m =>
      match findEvent st mid step with
      | some _ => (st, .ok true)
      | none =>
        let ev : MissionEvent := ⟨st.nextId, mid, now, step, agent, ty, summary, payload, none⟩
        let m₂ : Mission := emitMissionUpdate m step ty summary now
        ({ st with
            missions := st.missions.map (fun x => if x.id == mid then m₂ else x),
            events := st.events ++ [ev],
            nextId := st.nextId + 1 }, .ok false)

/-- The start endpoint (src/app/api/missions/start/route.ts): creates a
running mission at currentStep 1 and seeds the scripted step-1 PLAN event. -/
def startMission (st : Store) (title : String) (runMode : RunMode) (now : Nat) :
    Store × Nat :=
  let mid := st.nextId
  let m : Mission := ⟨mid, title, .running, 1, now, now, none, none, none, none, some runMode⟩
  let ev : MissionEvent := ⟨st.nextId + 1, mid, now, 1, .Planner, .PLAN,
    "Mission initialized: Research and summarize latest AI trends",
    "objective: AI Trends Research; estimatedSteps: 17", some .scripted⟩
  ({ st with
      missions := st.missions ++ [m],
      events := st.events ++ [ev],
      nextId := st.nextId + 2 }, mid)

/-- Output of the content generator collaborator (src/lib/openai.ts),
including the optional checkpoint artifact override. -/
structure ArtifactUpdate where
  latestSummary : Option String
deriving DecidableEq, Repr

/-- Generated event content, as returned by generateEventWithOpenAI. -/
structure LLMGeneratedEvent where
  summary : String
  payload : String
  artifactUpdate : Option ArtifactUpdate
deriving DecidableEq, Repr

/-- Result of the tick endpoint: both a fresh append and an absorbed
duplicate answer with ok, step, used and the event, exactly as the route
does; terminal or defensive outcomes answer with ok and a status only. -/
inductive TickResult
  | notFound
  | statusOnly (s : MissionStatus)
  | stepResult (step : Int) (used : EventSource) (ev : MissionEvent)
deriving DecidableEq, Repr

/-- Content selection of the tick endpoint: the generated summary, payload,
artifact override and provenance, else the demo script row for the step,
else the generic fallback text. -/
def tickContent (g : Option LLMGeneratedEvent) (sched : StepSchedule)
    (nextStep : Int) : String × String × Option ArtifactUpdate × EventSource :=
  match g with
  | some llm => (llm.summary, llm.payload, llm.artifactUpdate, .openai)
  | none =>
    match demoScript.find? (fun d => d.step == nextStep) with
    | some d => (d.summary, d.payload, none, .fallback)
    | none =>
      (agentName sched.agent ++ " completed " ++ typeName sched.type ++
        " for step " ++ toString nextStep,
       "generic fallback", none, .fallback)

/-- The effective checkpoint artifact of a tick append: the truthy generated
override when present, else the event summary (JS or-semantics). -/
def tickLatest (artifactUpdate : Option ArtifactUpdate) (summary : String) : String :=
  match artifactUpdate with
  | some au =>
    match au.latestSummary with
    | some s => if s = "" then summary else s
    | none => summary
  | none => summary

/-- The event document a tick append inserts: identity from the id counter,
step and (agent, kind) from the schedule, content from tickContent. -/
def tickEventDoc (st : Store) (mid : Nat) (g : Option LLMGeneratedEvent)
    (sched : StepSchedule) (nextStep : Int) (now : Nat) : MissionEvent :=
  ⟨st.nextId, mid, now, nextStep, sched.agent, sched.type,
   (tickContent g sched nextStep).1, (tickContent g sched nextStep).2.1,
   some (tickContent g sched nextStep).2.2.2⟩

/-- The mission update a tick append applies: the per-append folding rule. -/
def tickMissionUpdate (m : Mission) (g : Option LLMGeneratedEvent)
    (sched : StepSchedule) (nextStep : Int) (now : Nat) : Mission :=
  { m with
    updatedAt := now,
    currentStep := nextStep,
    lastCheckpointAt := if sched.type == .CHECKPOINT then some now else m.lastCheckpointAt,
    latestSummary := if sched.type == .CHECKPOINT then
      some (tickLatest (tickContent g sched nextStep).2.2.1 (tickContent g sched nextStep).1)
      else m.latestSummary,
    status := if sched.type == .DONE || isFinalStep nextStep then .done else m.status }

/-- The tick endpoint (src/app/api/agents/tick/route.ts).  The generator
result is passed in as g (none models an unconfigured, failed or timed-out
generator); the context ranker only shapes the generator input and never
the state, so it needs no further modelling.  Control flow: terminal check,
bounds check against the schedule length, schedule resolution, idempotency
check, content selection (generator, else demo script row, else generic
text), insert, and the per-append aggregate update. -/
def tick (st : Store) (mid : Nat) (g : Option LLMGeneratedEvent) (now : Nat) :
    Store × TickResult :=
  match findMission st mid with
  | none => (st, .notFound)
  | some m =>
    if m.status == .running then
      let nextStep := m.currentStep + 1
      if getTotalSteps < nextStep then (st, .statusOnly .done)
      else
        match getScheduleForStep nextStep with
        | none => (st, .statusOnly m.status)
        | some sched =>
          match findEvent st mid nextStep with
          | some existing =>
            (st, .stepResult nextStep
              (if existing.source == some .openai then .openai else .fallback) existing)
          | none =>
            let ev := tickEventDoc st mid g sched nextStep now
            let m₂ := tickMissionUpdate m g sched nextStep now
            ({ st with
                missions := st.missions.map (fun x => if x.id == mid then m₂ else x),
                events := st.events ++ [ev],
                nextId := st.nextId + 1 },
             .stepResult nextStep (tickContent g sched nextStep).2.2.2 ev)
    else (st, .statusOnly m.status)

/-- Copies of fork: each copied event gets a fresh id and the new mission id
while step, agent, kind, summary, payload and timestamp are taken verbatim;
the source field is not copied. -/
def copyEvents (baseId : Nat) (newMid : Nat) : List MissionEvent → List MissionEvent
  | [] => []
  | e :: rest =>
    { e with id := baseId, missionId := newMid, source := none } :: copyEvents (baseId + 1) newMid rest

/-- Result of the fork endpoint. -/
inductive ForkResult
  | validationError
  | notFound
  | notForkable
  | ok (newMissionId : Nat)
deriving DecidableEq, Repr

/-- The new mission document a fork creates: running, currentStep at the
branch step, checkpoint fields from the last CHECKPOINT among the copied
events, falling back -- via JS or-semantics -- to the parent cached latest
summary, and lineage set to the parent and the branch step. -/
def forkNewMission (st : Store) (parent : Mission)
    (parentEvents : List MissionEvent) (actualForkStep : Int)
    (parentId : Nat) (now : Nat) : Mission :=
  let lastCheckpoint := (parentEvents.filter (fun e => e.type == .CHECKPOINT)).getLast?
  let latest : Option String :=
    match lastCheckpoint with
    | some c => if c.summary = "" then parent.latestSummary else some c.summary
    | none => parent.latestSummary
  ⟨st.nextId, parent.title ++ " (fork)", .running, actualForkStep, now, now,
   lastCheckpoint.map (fun c => c.ts), latest, some parentId, some actualForkStep, none⟩

/-- The fork endpoint (src/app/api/missions/fork/route.ts).  It loads the
parent events with step at most forkStep in ascending step order; an empty
load is a 400 (NotForkable) with nothing created.  Otherwise the branch step
is the step of the last loaded event, the new mission is created running
with the checkpoint fields taken from the last CHECKPOINT among the loaded
events -- falling back, via JS or-semantics, to the parent cached latest
summary -- and the loaded events are copied under fresh ids. -/
def fork (st : Store) (parentId : Nat) (forkStep : Int) (now : Nat) :
    Store × ForkResult :=
  if forkStep < 1 then (st, .validationError)
  else
    match findMission st parentId with
    | none => (st, .notFound)
    | some parent =>
      let parentEvents := sortByStep (st.events.filter
        (fun e => e.missionId == parentId && decide (e.step ≤ forkStep)))
      match parentEvents.getLast? with
      | none => (st, .notForkable)
      | some lastEv =>
        ({ st with
            missions := st.missions ++
              [forkNewMission st parent parentEvents lastEv.step parentId now],
            events := st.events ++ copyEvents (st.nextId + 1) st.nextId parentEvents,
            nextId := st.nextId + 1 + parentEvents.length }, .ok st.nextId)

/-- The client replay machine state (src/app/swarmboard/page.tsx): the frozen
snapshot, the reveal index, the revealed list, the finished flag and the
from-checkpoint flag the replay was configured with. -/
structure ReplayState where
  replayEvents : List MissionEvent
  replayIndex : Nat
  visible : List MissionEvent
  replayFinished : Bool
  replayFromCheckpoint : Bool
deriving DecidableEq, Repr

/-- Index of the most recent CHECKPOINT event in a snapshot, as computed by
startReplay from the enumerated, filtered snapshot. -/
def lastCheckpointIndex (l : List MissionEvent) : Option Nat :=
  ((l.enum.filter (fun p => p.2.type == .CHECKPOINT)).getLast?).map (fun p => p.1)

/-- startReplay: refuses an empty snapshot; otherwise seeks the start offset
(the last CHECKPOINT index when the flag is set and one exists, else 0) and
reveals exactly the events before that offset. -/
def startReplay (events : List MissionEvent) (fromCheckpoint : Bool) :
    Option ReplayState :=
  if events.isEmpty then none
  else
    let startIndex := if fromCheckpoint then (lastCheckpointIndex events).getD 0 else 0
    some ⟨events, startIndex, events.take startIndex, false, fromCheckpoint⟩

/-- One firing of the replay interval: a finished replay is left alone;
advancing past the snapshot length only sets the finished flag; otherwise
the index advances by one and the revealed prefix grows accordingly. -/
def replayTick (rs : ReplayState) : ReplayState :=
  if rs.replayFinished then rs
  else
    let nextIndex := rs.replayIndex + 1
    if rs.replayEvents.length < nextIndex then { rs with replayFinished := true }
    else { rs with replayIndex := nextIndex, visible := rs.replayEvents.take nextIndex }

/-- n firings of the replay interval. -/
def replayIter : Nat → ReplayState → ReplayState
  | 0, rs => rs
  | n + 1, rs => replayIter n (replayTick rs)

/-- restartReplay re-enters the replay with the same snapshot and flag. -/
def restartReplay (rs : ReplayState) : Option ReplayState :=
  startReplay rs.replayEvents rs.replayFromCheckpoint

/-- Repeated tick calls against one mission, with an unconfigured generator
and a caller-chosen timestamp per call. -/
def tickRun (st : Store) (mid : Nat) (ts : Nat → Nat) : Nat → Store
  | 0 => st
  | k + 1 => (tick (tickRun st mid ts k) mid none (ts k)).1

/-- The content fields of an event that fork copies verbatim. -/
def eventContent (e : MissionEvent) :
    Int × AgentType × EventType × String × String × Nat :=
  (e.step, e.agent, e.type, e.summary, e.payload, e.ts)

section ScheduleLemmas

/-- A successful schedule lookup pins the row step to the query and bounds it
by the table range. -/
theorem schedule_step_bounds {n : Int} {sch : StepSchedule}
    (h : getScheduleForStep n = some sch) : sch.step = n ∧ 1 ≤ n ∧ n ≤ 17 := by
  unfold getScheduleForStep at h
  have hmem : sch ∈ stepSchedule := List.mem_of_find?_eq_some h
  have hp := List.find?_some h
  have hstep : sch.step = n := by simpa using hp
  subst hstep
  refine ⟨rfl, ?_, ?_⟩ <;> fin_cases hmem <;> decide

/-- isFinalStep holds exactly at the terminal step 17. -/
theorem isFinalStep_iff (s : Int) : isFinalStep s = true ↔ s = 17 := by
  constructor
  · intro h
    unfold isFinalStep at h
    rcases hs : getScheduleForStep s with _ | sch
    · rw [hs] at h; simp at h
    · rw [hs] at h
      have hb := schedule_step_bounds hs
      have hmem : sch ∈ stepSchedule := List.mem_of_find?_eq_some (by
        unfold getScheduleForStep at hs; exact hs)
      fin_cases hmem <;> simp_all
  · rintro rfl
    decide

end ScheduleLemmas

section FoldLemmas

/-- currentStep of the fold bounds every folded step and the seed. -/
theorem foldl_applyEvent_currentStep_ge (l : List MissionEvent) (a : Agg) :
    a.currentStep ≤ (l.foldl applyEvent a).currentStep ∧
    ∀ e ∈ l, e.step ≤ (l.foldl applyEvent a).currentStep := by
  induction l generalizing a with
  | nil => simp
  | cons x xs ih =>
    refine ⟨?_, ?_⟩
    · calc a.currentStep ≤ (applyEvent a x).currentStep := by
            simp [applyEvent]
        _ ≤ (xs.foldl applyEvent (applyEvent a x)).currentStep := (ih _).1
    · intro e he
      rcases List.mem_cons.mp he with rfl | he'
      · calc e.step ≤ (applyEvent a e).currentStep := by simp [applyEvent]
          _ ≤ (xs.foldl applyEvent (applyEvent a e)).currentStep := (ih _).1
      · exact (ih (applyEvent a x)).2 e he'

/-- currentStep of the fold is attained by the seed or by some folded step. -/
theorem foldl_applyEvent_currentStep_mem (l : List MissionEvent) (a : Agg) :
    (l.foldl applyEvent a).currentStep = a.currentStep ∨
    ∃ e ∈ l, (l.foldl applyEvent a).currentStep = e.step := by
  induction l generalizing a with
  | nil => simp
  | cons x xs ih =>
    rcases ih (applyEvent a x) with h | ⟨e, he, hstep⟩
    · rw [List.foldl_cons, h]
      by_cases hc : a.currentStep < x.step
      · right; exact ⟨x, List.mem_cons_self x xs, by simp [applyEvent, max_eq_right hc.le]⟩
      · left; simp [applyEvent, max_eq_left (not_lt.mp hc)]
    · right
      exact ⟨e, List.mem_cons_of_mem x he, by rw [List.foldl_cons]; exact hstep⟩

/-- One application of the folding rule turns status done exactly when it
already was or the event is DONE-kind or at the terminal step. -/
theorem applyEvent_status_iff (a : Agg) (x : MissionEvent) :
    ((applyEvent a x).status = .done ↔
      a.status = .done ∨ x.type = .DONE ∨ isFinalStep x.step = true) := by
  by_cases hd : x.type = .DONE
  · simp [applyEvent, hd]
  · by_cases hf : isFinalStep x.step = true
    · simp [applyEvent, hd, hf]
    · simp [applyEvent, hd, hf]

/-- Status of the fold is done exactly when the seed already was or some
folded event is DONE-kind or sits at the terminal step. -/
theorem foldl_applyEvent_status (l : List MissionEvent) (a : Agg) :
    ((l.foldl applyEvent a).status = .done ↔
      a.status = .done ∨ ∃ e ∈ l, e.type = .DONE ∨ isFinalStep e.step = true) := by
  induction l generalizing a with
  | nil => simp
  | cons x xs ih =>
    rw [List.foldl_cons, ih, applyEvent_status_iff]
    constructor
    · rintro ((h | hx) | ⟨e, he, hk⟩)
      · exact .inl h
      · exact .inr ⟨x, List.mem_cons_self x xs, hx⟩
      · exact .inr ⟨e, List.mem_cons_of_mem x he, hk⟩
    · rintro (h | ⟨e, he, hk⟩)
      · exact .inl (.inl h)
      · rcases List.mem_cons.mp he with rfl | he'
        · exact .inl (.inr hk)
        · exact .inr ⟨e, he', hk⟩

/-- lastCheckpointAt of the fold is the timestamp of the last CHECKPOINT in
fold order, else the seed value. -/
theorem foldl_applyEvent_lastCheckpointAt (l : List MissionEvent) (a : Agg) :
    (l.foldl applyEvent a).lastCheckpointAt =
      (((l.filter (fun e => e.type == .CHECKPOINT)).getLast?).map
        (fun c => some c.ts)).getD a.lastCheckpointAt := by
  induction l using List.reverseRecOn with
  | nil => simp
  | append_singleton xs x ih =>
    rw [List.foldl_append, List.filter_append]
    by_cases hx : (x.type == .CHECKPOINT) = true
    · rw [show List.filter (fun e => e.type == .CHECKPOINT) [x] = [x] by simp [hx]]
      rw [List.getLast?_concat]
      simp [applyEvent, hx]
    · rw [show List.filter (fun e => e.type == .CHECKPOINT) [x] = [] by
        simp only [List.filter, hx]]
      rw [List.append_nil, List.foldl_cons, List.foldl_nil]
      rw [show (applyEvent (xs.foldl applyEvent a) x).lastCheckpointAt
            = (xs.foldl applyEvent a).lastCheckpointAt by simp [applyEvent, hx]]
      exact ih

/-- latestSummary of the fold is the summary of the last CHECKPOINT in fold
order, else the seed value. -/
theorem foldl_applyEvent_latestSummary (l : List MissionEvent) (a : Agg) :
    (l.foldl applyEvent a).latestSummary =
      (((l.filter (fun e => e.type == .CHECKPOINT)).getLast?).map
        (fun c => some c.summary)).getD a.latestSummary := by
  induction l using List.reverseRecOn with
  | nil => simp
  | append_singleton xs x ih =>
    rw [List.foldl_append, List.filter_append]
    by_cases hx : (x.type == .CHECKPOINT) = true
    · rw [show List.filter (fun e => e.type == .CHECKPOINT) [x] = [x] by simp [hx]]
      rw [List.getLast?_concat]
      simp [applyEvent, hx]
    · rw [show List.filter (fun e => e.type == .CHECKPOINT) [x] = [] by
        simp only [List.filter, hx]]
      rw [List.append_nil, List.foldl_cons, List.foldl_nil]
      rw [show (applyEvent (xs.foldl applyEvent a) x).latestSummary
            = (xs.foldl applyEvent a).latestSummary by simp [applyEvent, hx]]
      exact ih

end FoldLemmas

section ListLemmas

/-- The last element of a list is a member. -/
theorem getLast?_mem_self {α : Type} {l : List α} {a : α}
    (h : l.getLast? = some a) : a ∈ l := by
  have hx : a ∈ l.getLast? := by rw [h]; rfl
  rcases List.mem_getLast?_eq_getLast hx with ⟨hne, rfl⟩
  exact List.getLast_mem hne

/-- find? distributes over append through the first hit. -/
theorem find?_append_some {α : Type} {p : α → Bool} {l1 l2 : List α} {a : α}
    (h : l1.find? p = some a) : (l1 ++ l2).find? p = some a := by
  rw [List.find?_append, h]; rfl

/-- find? skips an appended head block with no hit. -/
theorem find?_append_none {α : Type} {p : α → Bool} {l1 l2 : List α}
    (h : l1.find? p = none) : (l1 ++ l2).find? p = l2.find? p := by
  rw [List.find?_append, h]; rfl

/-- The updateOne map leaves lookups of a different mission id unchanged. -/
theorem find?_map_update_ne (l : List Mission) (mid mid2 : Nat) (m' : Mission)
    (hid : m'.id = mid2) (hne : mid ≠ mid2) :
    (l.map (fun x => if x.id == mid2 then m' else x)).find? (fun x => x.id == mid)
      = l.find? (fun x => x.id == mid) := by
  induction l with
  | nil => rfl
  | cons h t ih =>
    simp only [List.map_cons]
    by_cases hh : h.id = mid2
    · rw [if_pos (by simpa using hh)]
      rw [List.find?_cons_of_neg _ (by simp [hid]; exact fun hc => hne hc.symm)]
      rw [List.find?_cons_of_neg _ (by simp [hh]; exact fun hc => hne hc.symm)]
      exact ih
    · rw [if_neg (by simpa using hh)]
      by_cases hm : h.id = mid
      · rw [List.find?_cons_of_pos _ (by simpa using hm),
          List.find?_cons_of_pos _ (by simpa using hm)]
      · rw [List.find?_cons_of_neg _ (by simpa using hm),
          List.find?_cons_of_neg _ (by simpa using hm)]
        exact ih

/-- The updateOne map rewrites the lookup of the updated mission id. -/
theorem find?_map_update_eq (l : List Mission) (mid : Nat) (m' : Mission)
    (hid : m'.id = mid) :
    (l.map (fun x => if x.id == mid then m' else x)).find? (fun x => x.id == mid)
      = (l.find? (fun x => x.id == mid)).map (fun _ => m') := by
  induction l with
  | nil => rfl
  | cons h t ih =>
    simp only [List.map_cons]
    by_cases hm : h.id = mid
    · rw [if_pos (by simpa using hm)]
      rw [List.find?_cons_of_pos _ (by simpa using hid),
        List.find?_cons_of_pos _ (by simpa using hm)]
      rfl
    · rw [if_neg (by simpa using hm)]
      rw [List.find?_cons_of_neg _ (by simpa using hm),
        List.find?_cons_of_neg _ (by simpa using hm)]
      exact ih

/-- Copied events keep step, agent, kind, summary, payload and timestamp. -/
theorem copyEvents_content (b nm : Nat) (l : List MissionEvent) :
    (copyEvents b nm l).map eventContent = l.map eventContent := by
  induction l generalizing b with
  | nil => rfl
  | cons x xs ih => simp [copyEvents, eventContent, ih]

/-- Every copied event carries the new mission id and a fresh identity. -/
theorem copyEvents_fields (b nm : Nat) (l : List MissionEvent) :
    ∀ e ∈ copyEvents b nm l, e.missionId = nm ∧ b ≤ e.id := by
  induction l generalizing b with
  | nil => simp [copyEvents]
  | cons x xs ih =>
    intro e he
    rcases List.mem_cons.mp he with rfl | he'
    · exact ⟨rfl, le_refl _⟩
    · have h := ih (b + 1) e he'
      exact ⟨h.1, le_trans (Nat.le_succ b) h.2⟩

/-- In a step-sorted list the last element has the maximal step. -/
theorem getLast_step_max {l : List MissionEvent} (h : l.Pairwise stepLE)
    {x : MissionEvent} (hl : l.getLast? = some x) : ∀ e ∈ l, e.step ≤ x.step := by
  induction l with
  | nil => simp at hl
  | cons a t ih =>
    rcases t with _ | ⟨b, t'⟩
    · simp only [List.getLast?_singleton, Option.some.injEq] at hl
      subst hl
      intro e he
      simp only [List.mem_singleton] at he
      subst he
      exact le_refl _
    · rw [List.getLast?_cons_cons] at hl
      have hpw := List.pairwise_cons.mp h
      intro e he
      rcases List.mem_cons.mp he with rfl | he'
      · have hx : x ∈ b :: t' := getLast?_mem_self hl
        exact hpw.1 x hx
      · exact ih hpw.2 hl e he'

/-- sortByStep produces a step-sorted permutation of its input. -/
theorem sortByStep_sorted (l : List MissionEvent) :
    (sortByStep l).Pairwise stepLE :=
  List.sorted_insertionSort stepLE l

/-- sortByStep is a permutation of its input. -/
theorem sortByStep_perm (l : List MissionEvent) : (sortByStep l).Perm l :=
  List.perm_insertionSort stepLE l

end ListLemmas

/-- C2: for every event sequence with positive steps (any arrival order),
the fold yields currentStep equal to the maximum step in the sequence --
events can advance but never regress the counter -- and status done exactly
when the sequence holds a DONE-kind event or an event at the schedule
terminal step 17. -/
theorem c2_fold_max_step_and_done (l : List MissionEvent)
    (hpos : ∀ e ∈ l, 1 ≤ e.step) :
    (∀ e ∈ l, e.step ≤ (foldAgg l).currentStep) ∧
    (l ≠ [] → ∃ e ∈ l, (foldAgg l).currentStep = e.step) ∧
    ((foldAgg l).status = .done ↔ ∃ e ∈ l, e.type = .DONE ∨ e.step = 17) := by
  refine ⟨(foldl_applyEvent_currentStep_ge l initAgg).2, ?_, ?_⟩
  · intro hne
    rcases foldl_applyEvent_currentStep_mem l initAgg with h | h
    · exfalso
      rcases List.exists_mem_of_ne_nil l hne with ⟨e, he⟩
      have h1 := (foldl_applyEvent_currentStep_ge l initAgg).2 e he
      have h2 := hpos e he
      have h3 : (l.foldl applyEvent initAgg).currentStep = (0 : Int) := h
      have h4 : e.step ≤ (l.foldl applyEvent initAgg).currentStep := h1
      omega
    · exact h
  · rw [show foldAgg l = l.foldl applyEvent initAgg from rfl,
      foldl_applyEvent_status]
    constructor
    · rintro (h | ⟨e, he, hk⟩)
      · exact absurd h (by simp [initAgg])
      · refine ⟨e, he, ?_⟩
        rcases hk with hk | hk
        · exact .inl hk
        · exact .inr ((isFinalStep_iff e.step).mp hk)
    · rintro ⟨e, he, hk⟩
      refine .inr ⟨e, he, ?_⟩
      rcases hk with hk | hk
      · exact .inl hk
      · exact .inr ((isFinalStep_iff e.step).mpr hk)

/-- Witness for C2 at a concrete two-event log ending in a DONE event. -/
theorem c2_fold_max_step_and_done_witness :
    (∀ e ∈ [(⟨5, 0, 10, 1, .Planner, .PLAN, "a", "p", none⟩ : MissionEvent),
            ⟨6, 0, 20, 17, .Planner, .DONE, "d", "p", none⟩], 1 ≤ e.step) ∧
    ((∀ e ∈ [(⟨5, 0, 10, 1, .Planner, .PLAN, "a", "p", none⟩ : MissionEvent),
             ⟨6, 0, 20, 17, .Planner, .DONE, "d", "p", none⟩],
        e.step ≤ (foldAgg [⟨5, 0, 10, 1, .Planner, .PLAN, "a", "p", none⟩,
             ⟨6, 0, 20, 17, .Planner, .DONE, "d", "p", none⟩]).currentStep) ∧
     ([(⟨5, 0, 10, 1, .Planner, .PLAN, "a", "p", none⟩ : MissionEvent),
       ⟨6, 0, 20, 17, .Planner, .DONE, "d", "p", none⟩] ≠ [] →
        ∃ e ∈ [(⟨5, 0, 10, 1, .Planner, .PLAN, "a", "p", none⟩ : MissionEvent),
               ⟨6, 0, 20, 17, .Planner, .DONE, "d", "p", none⟩],
          (foldAgg [⟨5, 0, 10, 1, .Planner, .PLAN, "a", "p", none⟩,
               ⟨6, 0, 20, 17, .Planner, .DONE, "d", "p", none⟩]).currentStep = e.step) ∧
     ((foldAgg [⟨5, 0, 10, 1, .Planner, .PLAN, "a", "p", none⟩,
          ⟨6, 0, 20, 17, .Planner, .DONE, "d", "p", none⟩]).status = .done ↔
        ∃ e ∈ [(⟨5, 0, 10, 1, .Planner, .PLAN, "a", "p", none⟩ : MissionEvent),
               ⟨6, 0, 20, 17, .Planner, .DONE, "d", "p", none⟩],
          e.type = .DONE ∨ e.step = 17)) :=
  ⟨by decide, c2_fold_max_step_and_done _ (by decide)⟩

/-- A duplicate-key append (the unique (missionId, step) index already holds
an event) is answered with ok and duplicate true and changes nothing. -/
theorem emit_duplicate (st : Store) (mid : Nat) (step : Int) (a : AgentType)
    (ty : EventType) (s p : String) (n : Nat)
    (hv : ¬(step = 0 ∨ s = ""))
    (hm : ∃ m2, findMission st mid = some m2)
    (hd : ∃ e2, findEvent st mid step = some e2) :
    emitEvent st mid step a ty s p n = (st, .ok true) := by
  rcases hm with ⟨m2, hm⟩
  rcases hd with ⟨e2, hd⟩
  unfold emitEvent
  rw [if_neg hv, hm, hd]

/-- C3: two appends at the same (missionId, step) with different content:
exactly one event is persisted, holding the first content; the second call
is answered with the idempotent alreadyExists outcome, not an error, and
leaves the whole store -- stored event and mission record -- unchanged. -/
theorem c3_duplicate_step_first_writer_wins (st : Store) (mid : Nat)
    (m : Mission) (step : Int) (a1 a2 : AgentType) (t1 t2 : EventType)
    (s1 s2 p1 p2 : String) (n1 n2 : Nat)
    (hm : findMission st mid = some m)
    (hstep : step ≠ 0) (hs1 : s1 ≠ "") (hs2 : s2 ≠ "") (hdiff : s1 ≠ s2)
    (hnew : findEvent st mid step = none) :
    (emitEvent st mid step a1 t1 s1 p1 n1).2 = .ok false ∧
    (emitEvent (emitEvent st mid step a1 t1 s1 p1 n1).1 mid step a2 t2 s2 p2 n2).2
      = .ok true ∧
    (emitEvent (emitEvent st mid step a1 t1 s1 p1 n1).1 mid step a2 t2 s2 p2 n2).1
      = (emitEvent st mid step a1 t1 s1 p1 n1).1 ∧
    ((emitEvent st mid step a1 t1 s1 p1 n1).1.events.filter
        (fun e => e.missionId == mid && e.step == step))
      = [⟨st.nextId, mid, n1, step, a1, t1, s1, p1, none⟩] := by
  have hv1 : ¬(step = 0 ∨ s1 = "") := by
    rintro (h | h)
    · exact hstep h
    · exact hs1 h
  have hv2 : ¬(step = 0 ∨ s2 = "") := by
    rintro (h | h)
    · exact hstep h
    · exact hs2 h
  have hm' : st.missions.find? (fun x => x.id == mid) = some m := hm
  have hmid : m.id = mid := by simpa using List.find?_some hm'
  have hev1 : (emitEvent st mid step a1 t1 s1 p1 n1).1.events
      = st.events ++ [⟨st.nextId, mid, n1, step, a1, t1, s1, p1, none⟩] := by
    unfold emitEvent
    rw [if_neg hv1, hm, hnew]
  have hfm0 : findMission (emitEvent st mid step a1 t1 s1 p1 n1).1 mid
      = some { m with
          updatedAt := n1
          currentStep := if m.currentStep < step then step else m.currentStep
          lastCheckpointAt := if t1 == .CHECKPOINT then some n1 else m.lastCheckpointAt
          latestSummary := if t1 == .CHECKPOINT then some s1 else m.latestSummary
          status := if t1 == .DONE then .done else m.status } := by
    unfold emitEvent
    rw [if_neg hv1, hm, hnew]
    simp only [findMission]
    refine (find?_map_update_eq st.missions mid _ (by exact hmid)).trans ?_
    rw [hm']
    rfl
  have hfm1 : ∃ m2, findMission (emitEvent st mid step a1 t1 s1 p1 n1).1 mid
      = some m2 := ⟨_, hfm0⟩
  have hfe0 : findEvent (emitEvent st mid step a1 t1 s1 p1 n1).1 mid step
      = some ⟨st.nextId, mid, n1, step, a1, t1, s1, p1, none⟩ := by
    simp only [findEvent]
    rw [hev1, find?_append_none hnew]
    exact List.find?_cons_of_pos _ (by simp)
  have hfe1 : ∃ e2, findEvent (emitEvent st mid step a1 t1 s1 p1 n1).1 mid step
      = some e2 := ⟨_, hfe0⟩
  have hdup := emit_duplicate (emitEvent st mid step a1 t1 s1 p1 n1).1 mid step
    a2 t2 s2 p2 n2 hv2 hfm1 hfe1
  refine ⟨?_, ?_, ?_, ?_⟩
  · unfold emitEvent
    rw [if_neg hv1, hm, hnew]
  · rw [hdup]
  · rw [hdup]
  · rw [hev1, List.filter_append]
    have hz : st.events.filter (fun e => e.missionId == mid && e.step == step)
        = [] := by
      apply List.filter_eq_nil_iff.mpr
      intro e he
      exact List.find?_eq_none.mp hnew e he
    rw [hz]
    simp

/-- Witness for C3: the documented scenario -- a fresh mission, a step-2
append with one summary and a second step-2 append with another. -/
theorem c3_duplicate_step_first_writer_wins_witness :
    (findMission (startMission emptyStore "M" .scripted 0).1 0
        = some ⟨0, "M", .running, 1, 0, 0, none, none, none, none, some .scripted⟩) ∧
    ((2 : Int) ≠ 0) ∧
    (emitEvent (startMission emptyStore "M" .scripted 0).1 0 2 .Planner .ASSIGN
        "summaryA" "pA" 1).2 = .ok false ∧
    (emitEvent (emitEvent (startMission emptyStore "M" .scripted 0).1 0 2 .Planner
        .ASSIGN "summaryA" "pA" 1).1 0 2 .Planner .ASSIGN "summaryB" "pB" 2).2
      = .ok true ∧
    (emitEvent (emitEvent (startMission emptyStore "M" .scripted 0).1 0 2 .Planner
        .ASSIGN "summaryA" "pA" 1).1 0 2 .Planner .ASSIGN "summaryB" "pB" 2).1
      = (emitEvent (startMission emptyStore "M" .scripted 0).1 0 2 .Planner .ASSIGN
        "summaryA" "pA" 1).1 ∧
    ((emitEvent (startMission emptyStore "M" .scripted 0).1 0 2 .Planner .ASSIGN
        "summaryA" "pA" 1).1.events.filter (fun e => e.missionId == 0 && e.step == 2))
      = [⟨2, 0, 1, 2, .Planner, .ASSIGN, "summaryA", "pA", none⟩] := by
  have h := c3_duplicate_step_first_writer_wins
    (startMission emptyStore "M" .scripted 0).1 0
    ⟨0, "M", .running, 1, 0, 0, none, none, none, none, some .scripted⟩ 2
    .Planner .Planner .ASSIGN .ASSIGN "summaryA" "summaryB" "pA" "pB" 1 2
    (by decide) (by decide) (by decide) (by decide) (by decide) (by decide)
  exact ⟨by decide, by decide, h.1, h.2.1, h.2.2.1, h.2.2.2⟩

/-- C9 counterexample: an emit with the negative step -1 on a fresh mission
is not rejected as a validation error; it is accepted and the event is
persisted, so the claimed rejection of every non-positive step fails. -/
theorem c9_counterexample_negative_step_persisted :
    (emitEvent (startMission emptyStore "M" .scripted 0).1 0 (-1) .Critic .NOTE
        "late note" "p" 1).2 = .ok false ∧
    (emitEvent (startMission emptyStore "M" .scripted 0).1 0 (-1) .Critic .NOTE
        "late note" "p" 1).1.events.length = 2 := by decide

/-- C9 amended: a zero step is rejected before any persistence attempt with
nothing mutated (it falls into the missing-required-fields check by JS
falsiness); a negative step is NOT rejected: with the mission present and
the step fresh, the call answers ok and persists the event, leaving the
cached currentStep unmoved whenever it was nonnegative. -/
theorem c9_zero_step_rejected_negative_step_accepted :
    (∀ st mid a ty s p now,
      emitEvent st mid 0 a ty s p now = (st, .validationError)) ∧
    (∀ st mid m a ty (s p : String) now step, step < 0 → s ≠ "" →
      findMission st mid = some m → findEvent st mid step = none →
      0 ≤ m.currentStep →
      (emitEvent st mid step a ty s p now).2 = .ok false ∧
      (emitEvent st mid step a ty s p now).1.events
        = st.events ++ [⟨st.nextId, mid, now, step, a, ty, s, p, none⟩] ∧
      ∃ m2, findMission (emitEvent st mid step a ty s p now).1 mid = some m2 ∧
        m2.currentStep = m.currentStep) := by
  constructor
  · intro st mid a ty s p now
    unfold emitEvent
    rw [if_pos (Or.inl rfl)]
  · intro st mid m a ty s p now step hneg hs hm hnew hcs
    have hv : ¬(step = 0 ∨ s = "") := by
      rintro (h | h)
      · omega
      · exact hs h
    have hm' : st.missions.find? (fun x => x.id == mid) = some m := hm
    have hmid : m.id = mid := by simpa using List.find?_some hm'
    have hfm0 : findMission (emitEvent st mid step a ty s p now).1 mid
        = some { m with
            updatedAt := now
            currentStep := if m.currentStep < step then step else m.currentStep
            lastCheckpointAt := if ty == .CHECKPOINT then some now else m.lastCheckpointAt
            latestSummary := if ty == .CHECKPOINT then some s else m.latestSummary
            status := if ty == .DONE then .done else m.status } := by
      unfold emitEvent
      rw [if_neg hv, hm, hnew]
      simp only [findMission]
      refine (find?_map_update_eq st.missions mid _ (by exact hmid)).trans ?_
      rw [hm']
      rfl
    refine ⟨?_, ?_, ?_⟩
    · unfold emitEvent
      rw [if_neg hv, hm, hnew]
    · unfold emitEvent
      rw [if_neg hv, hm, hnew]
    · refine ⟨_, hfm0, ?_⟩
      show (if m.currentStep < step then step else m.currentStep) = m.currentStep
      rw [if_neg (by omega)]

/-- Witness for C9 as amended, on a fresh mission: step 0 is rejected with
the state unchanged, and step -1 is accepted and persisted. -/
theorem c9_zero_step_rejected_negative_step_accepted_witness :
    (emitEvent (startMission emptyStore "M" .scripted 0).1 0 0 .Critic .NOTE
        "x" "p" 1 = ((startMission emptyStore "M" .scripted 0).1, .validationError)) ∧
    ((-1 : Int) < 0) ∧
    (emitEvent (startMission emptyStore "M" .scripted 0).1 0 (-1) .Critic .NOTE
        "x" "p" 1).2 = .ok false ∧
    (emitEvent (startMission emptyStore "M" .scripted 0).1 0 (-1) .Critic .NOTE
        "x" "p" 1).1.events
      = (startMission emptyStore "M" .scripted 0).1.events
        ++ [⟨2, 0, 1, -1, .Critic, .NOTE, "x", "p", none⟩] ∧
    (∃ m2, findMission (emitEvent (startMission emptyStore "M" .scripted 0).1 0
        (-1) .Critic .NOTE "x" "p" 1).1 0 = some m2 ∧ m2.currentStep = 1) := by
  have h0 := c9_zero_step_rejected_negative_step_accepted.1
    (startMission emptyStore "M" .scripted 0).1 0 .Critic .NOTE "x" "p" 1
  have h1 := c9_zero_step_rejected_negative_step_accepted.2
    (startMission emptyStore "M" .scripted 0).1 0
    ⟨0, "M", .running, 1, 0, 0, none, none, none, none, some .scripted⟩
    .Critic .NOTE "x" "p" 1 (-1) (by decide) (by decide) (by decide) (by decide)
    (by decide)
  exact ⟨h0, by decide, h1.1, h1.2.1, h1.2.2⟩

section TickStepping

/-- tick on an unknown mission id: 404, no mutation. -/
theorem tick_not_found {st : Store} {mid : Nat} {g : Option LLMGeneratedEvent}
    {now : Nat} (h : findMission st mid = none) :
    tick st mid g now = (st, .notFound) := by
  unfold tick
  rw [h]

/-- tick on a non-running mission: status echo, no mutation. -/
theorem tick_terminal {st : Store} {mid : Nat} {g : Option LLMGeneratedEvent}
    {now : Nat} {m : Mission} (hm : findMission st mid = some m)
    (h : ¬ m.status = .running) :
    tick st mid g now = (st, .statusOnly m.status) := by
  unfold tick
  rw [hm]
  simp [h]

/-- tick past the schedule length: done echo, no mutation. -/
theorem tick_past_total {st : Store} {mid : Nat} {g : Option LLMGeneratedEvent}
    {now : Nat} {m : Mission} (hm : findMission st mid = some m)
    (hrun : m.status = .running) (h : getTotalSteps < m.currentStep + 1) :
    tick st mid g now = (st, .statusOnly .done) := by
  unfold tick
  rw [hm]
  simp [hrun, h]

/-- tick with no schedule row for the next step: defensive echo. -/
theorem tick_no_schedule {st : Store} {mid : Nat} {g : Option LLMGeneratedEvent}
    {now : Nat} {m : Mission} (hm : findMission st mid = some m)
    (hrun : m.status = .running) (hle : ¬ getTotalSteps < m.currentStep + 1)
    (hsch : getScheduleForStep (m.currentStep + 1) = none) :
    tick st mid g now = (st, .statusOnly m.status) := by
  unfold tick
  rw [hm]
  simp [hrun, hle, hsch]

/-- tick with the next step already persisted: absorbed duplicate, no
mutation, the existing event is returned. -/
theorem tick_duplicate {st : Store} {mid : Nat} {g : Option LLMGeneratedEvent}
    {now : Nat} {m : Mission} {sched : StepSchedule} {existing : MissionEvent}
    (hm : findMission st mid = some m)
    (hrun : m.status = .running) (hle : ¬ getTotalSteps < m.currentStep + 1)
    (hsch : getScheduleForStep (m.currentStep + 1) = some sched)
    (hfe : findEvent st mid (m.currentStep + 1) = some existing) :
    tick st mid g now = (st, .stepResult (m.currentStep + 1)
      (if existing.source == some .openai then .openai else .fallback) existing) := by
  unfold tick
  rw [hm]
  simp [hrun, hle, hsch, hfe]

/-- tick appending a fresh event: the inserted document and the mission
update, spelled with the helper definitions. -/
theorem tick_insert {st : Store} {mid : Nat} {g : Option LLMGeneratedEvent}
    {now : Nat} {m : Mission} {sched : StepSchedule}
    (hm : findMission st mid = some m)
    (hrun : m.status = .running) (hle : ¬ getTotalSteps < m.currentStep + 1)
    (hsch : getScheduleForStep (m.currentStep + 1) = some sched)
    (hfe : findEvent st mid (m.currentStep + 1) = none) :
    tick st mid g now =
      ({ st with
          missions := st.missions.map (fun x =>
            if x.id == mid then tickMissionUpdate m g sched (m.currentStep + 1) now else x),
          events := st.events ++ [tickEventDoc st mid g sched (m.currentStep + 1) now],
          nextId := st.nextId + 1 },
       .stepResult (m.currentStep + 1) (tickContent g sched (m.currentStep + 1)).2.2.2
         (tickEventDoc st mid g sched (m.currentStep + 1) now)) := by
  unfold tick
  rw [hm]
  simp [hrun, hle, hsch, hfe]

end TickStepping

section EmitStepping

/-- emit inserting a fresh event: the inserted document and the mission
update, spelled with the helper definition. -/
theorem emit_insert {st : Store} {mid : Nat} {step : Int} {a : AgentType}
    {ty : EventType} {s p : String} {now : Nat} {m : Mission}
    (hv : ¬(step = 0 ∨ s = "")) (hm : findMission st mid = some m)
    (hfe : findEvent st mid step = none) :
    emitEvent st mid step a ty s p now =
      ({ st with
          missions := st.missions.map (fun x =>
            if x.id == mid then emitMissionUpdate m step ty s now else x),
          events := st.events ++ [⟨st.nextId, mid, now, step, a, ty, s, p, none⟩],
          nextId := st.nextId + 1 }, .ok false) := by
  unfold emitEvent
  rw [if_neg hv, hm, hfe]

end EmitStepping

section ForkStepping

/-- fork with a non-positive fork step: 400, no mutation. -/
theorem fork_validation {st : Store} {pid : Nat} {fs : Int} {now : Nat}
    (h : fs < 1) : fork st pid fs now = (st, .validationError) := by
  unfold fork
  rw [if_pos h]

/-- fork of an unknown parent: 404, no mutation. -/
theorem fork_not_found {st : Store} {pid : Nat} {fs : Int} {now : Nat}
    (hv : ¬ fs < 1) (h : findMission st pid = none) :
    fork st pid fs now = (st, .notFound) := by
  unfold fork
  rw [if_neg hv, h]

/-- fork with no parent event at or before the fork step: NotForkable, no
mutation. -/
theorem fork_not_forkable {st : Store} {pid : Nat} {fs : Int} {now : Nat}
    {parent : Mission} (hv : ¬ fs < 1) (hm : findMission st pid = some parent)
    (h : (sortByStep (st.events.filter
      (fun e => e.missionId == pid && decide (e.step ≤ fs)))).getLast? = none) :
    fork st pid fs now = (st, .notForkable) := by
  unfold fork
  rw [if_neg hv, hm]
  simp [h]

/-- fork succeeding: the new mission and the copied events, spelled with the
helper definitions. -/
theorem fork_success {st : Store} {pid : Nat} {fs : Int} {now : Nat}
    {parent : Mission} {lastEv : MissionEvent}
    (hv : ¬ fs < 1) (hm : findMission st pid = some parent)
    (h : (sortByStep (st.events.filter
      (fun e => e.missionId == pid && decide (e.step ≤ fs)))).getLast? = some lastEv) :
    fork st pid fs now =
      ({ st with
          missions := st.missions ++
            [forkNewMission st parent (sortByStep (st.events.filter
              (fun e => e.missionId == pid && decide (e.step ≤ fs))))
              lastEv.step pid now],
          events := st.events ++ copyEvents (st.nextId + 1) st.nextId
            (sortByStep (st.events.filter
              (fun e => e.missionId == pid && decide (e.step ≤ fs)))),
          nextId := st.nextId + 1 + (sortByStep (st.events.filter
            (fun e => e.missionId == pid && decide (e.step ≤ fs)))).length },
       .ok st.nextId) := by
  unfold fork
  rw [if_neg hv, hm]
  simp [h]

end ForkStepping

section DonePreservation

/-- Updating one mission record through the updateOne map keeps a watched
done mission done, provided the update itself never leaves done. -/
theorem statusOf_map_update (st : Store) (events2 : List MissionEvent)
    (nid : Nat) (mid mid2 : Nat) (m2 M : Mission)
    (hfm2 : findMission st mid2 = some m2)
    (hidM : M.id = m2.id)
    (hMs : m2.status = .done → M.status = .done)
    (h : statusOf st mid = some .done) :
    statusOf ⟨st.missions.map (fun x => if x.id == mid2 then M else x),
      events2, nid⟩ mid = some .done := by
  have hmid2 : m2.id = mid2 := by
    simpa using List.find?_some
      (show st.missions.find? (fun x => x.id == mid2) = some m2 from hfm2)
  rcases hfm : findMission st mid with _ | m0
  · rw [statusOf, hfm] at h
    simp at h
  · have hst : m0.status = .done := by
      rw [statusOf, hfm] at h
      simpa using h
    by_cases hc : mid = mid2
    · subst hc
      have hm20 : m2 = m0 := by
        rw [hfm] at hfm2
        exact (Option.some.inj hfm2).symm
      simp only [statusOf, findMission]
      rw [find?_map_update_eq st.missions mid M (hidM.trans hmid2)]
      rw [show st.missions.find? (fun x => x.id == mid) = some m0 from hfm]
      simpa using hMs (hm20 ▸ hst)
    · simp only [statusOf, findMission]
      rw [find?_map_update_ne st.missions mid mid2 M (hidM.trans hmid2) hc]
      rw [show st.missions.find? (fun x => x.id == mid) = some m0 from hfm]
      simpa using hst

/-- An appended missions collection keeps a watched done mission done. -/
theorem statusOf_append (st : Store) (events2 : List MissionEvent)
    (nid : Nat) (mid : Nat) (newM : List Mission)
    (h : statusOf st mid = some .done) :
    statusOf ⟨st.missions ++ newM, events2, nid⟩ mid = some .done := by
  rcases hfm : findMission st mid with _ | m0
  · rw [statusOf, hfm] at h
    simp at h
  · have hst : m0.status = .done := by
      rw [statusOf, hfm] at h
      simpa using h
    simp only [statusOf, findMission]
    rw [find?_append_some
      (show st.missions.find? (fun x => x.id == mid) = some m0 from hfm)]
    simpa using hst

/-- emit never moves any mission out of done. -/
theorem emit_preserves_done (st : Store) (mid mid2 : Nat) (step : Int)
    (a : AgentType) (ty : EventType) (s p : String) (now : Nat)
    (h : statusOf st mid = some .done) :
    statusOf (emitEvent st mid2 step a ty s p now).1 mid = some .done := by
  by_cases hv : step = 0 ∨ s = ""
  · unfold emitEvent
    rw [if_pos hv]
    exact h
  · rcases hfm2 : findMission st mid2 with _ | m2
    · unfold emitEvent
      rw [if_neg hv, hfm2]
      exact h
    · rcases hfe : findEvent st mid2 step with _ | e0
      · rw [emit_insert hv hfm2 hfe]
        exact statusOf_map_update st _ _ mid mid2 m2 _ hfm2 (by rfl)
          (fun hd => by
            show (if (ty == EventType.DONE) = true then MissionStatus.done
              else m2.status) = MissionStatus.done
            split
            · rfl
            · exact hd) h
      · rw [emit_duplicate st mid2 step a ty s p now hv ⟨m2, hfm2⟩ ⟨e0, hfe⟩]
        exact h

/-- tick never moves any mission out of done. -/
theorem tick_preserves_done (st : Store) (mid mid2 : Nat)
    (g : Option LLMGeneratedEvent) (now : Nat)
    (h : statusOf st mid = some .done) :
    statusOf (tick st mid2 g now).1 mid = some .done := by
  rcases hfm2 : findMission st mid2 with _ | m2
  · rw [tick_not_found hfm2]
    exact h
  · by_cases hrun : m2.status = .running
    · by_cases hle : getTotalSteps < m2.currentStep + 1
      · rw [tick_past_total hfm2 hrun hle]
        exact h
      · rcases hsch : getScheduleForStep (m2.currentStep + 1) with _ | sched
        · rw [tick_no_schedule hfm2 hrun hle hsch]
          exact h
        · rcases hfe : findEvent st mid2 (m2.currentStep + 1) with _ | e0
          · rw [tick_insert hfm2 hrun hle hsch hfe]
            exact statusOf_map_update st _ _ mid mid2 m2 _ hfm2 (by rfl)
              (fun hd => by
                show (if (sched.type == EventType.DONE
                    || isFinalStep (m2.currentStep + 1)) = true
                  then MissionStatus.done else m2.status) = MissionStatus.done
                split
                · rfl
                · exact hd) h
          · rw [tick_duplicate hfm2 hrun hle hsch hfe]
            exact h
    · rw [tick_terminal hfm2 hrun]
      exact h

/-- fork never moves any mission out of done. -/
theorem fork_preserves_done (st : Store) (mid pid : Nat) (fs : Int) (now : Nat)
    (h : statusOf st mid = some .done) :
    statusOf (fork st pid fs now).1 mid = some .done := by
  by_cases hv : fs < 1
  · rw [fork_validation hv]
    exact h
  · rcases hfm : findMission st pid with _ | parent
    · rw [fork_not_found hv hfm]
      exact h
    · rcases hlast : (sortByStep (st.events.filter
          (fun e => e.missionId == pid && decide (e.step ≤ fs)))).getLast? with _ | lastEv
      · rw [fork_not_forkable hv hfm hlast]
        exact h
      · rw [fork_success hv hfm hlast]
        exact statusOf_append st _ _ mid _ h

/-- start never moves any mission out of done. -/
theorem start_preserves_done (st : Store) (mid : Nat) (title : String)
    (rm : RunMode) (now : Nat)
    (h : statusOf st mid = some .done) :
    statusOf (startMission st title rm now).1 mid = some .done := by
  unfold startMission
  exact statusOf_append st _ _ mid _ h

end DonePreservation

/-- C10 (implicit): emit performs no terminal-status check -- on a mission
whose status is done, an emit at a fresh step above currentStep still
inserts the event and advances currentStep (the step may even exceed the
17-step schedule) while status stays done; and no operation (emit, tick,
fork, start) ever moves a mission status out of done. -/
theorem c10_emit_ignores_done_status :
    (∀ st mid m step a ty (s p : String) now,
      findMission st mid = some m → m.status = .done →
      m.currentStep < step → step ≠ 0 → s ≠ "" →
      findEvent st mid step = none →
      (emitEvent st mid step a ty s p now).2 = .ok false ∧
      (emitEvent st mid step a ty s p now).1.events
        = st.events ++ [⟨st.nextId, mid, now, step, a, ty, s, p, none⟩] ∧
      ∃ m2, findMission (emitEvent st mid step a ty s p now).1 mid = some m2 ∧
        m2.currentStep = step ∧ m2.status = .done) ∧
    (∀ st mid, statusOf st mid = some .done →
      (∀ mid2 step a ty s p now,
        statusOf (emitEvent st mid2 step a ty s p now).1 mid = some .done) ∧
      (∀ mid2 g now, statusOf (tick st mid2 g now).1 mid = some .done) ∧
      (∀ pid fs now, statusOf (fork st pid fs now).1 mid = some .done) ∧
      (∀ title rm now,
        statusOf (startMission st title rm now).1 mid = some .done)) := by
  constructor
  · intro st mid m step a ty s p now hm hdone hcs hs0 hsne hfe
    have hv : ¬(step = 0 ∨ s = "") := by
      rintro (h | h)
      · exact hs0 h
      · exact hsne h
    have hm' : st.missions.find? (fun x => x.id == mid) = some m := hm
    have hmid : m.id = mid := by simpa using List.find?_some hm'
    rw [emit_insert hv hm hfe]
    refine ⟨rfl, rfl, emitMissionUpdate m step ty s now, ?_, ?_, ?_⟩
    · simp only [findMission]
      refine (find?_map_update_eq st.missions mid _ (by exact hmid)).trans ?_
      rw [hm']
      rfl
    · show (if m.currentStep < step then step else m.currentStep) = step
      rw [if_pos hcs]
    · show (if (ty == EventType.DONE) = true then MissionStatus.done
        else m.status) = .done
      split
      · rfl
      · exact hdone
  · intro st mid h
    exact ⟨fun mid2 step a ty s p now =>
        emit_preserves_done st mid mid2 step a ty s p now h,
      fun mid2 g now => tick_preserves_done st mid mid2 g now h,
      fun pid fs now => fork_preserves_done st mid pid fs now h,
      fun title rm now => start_preserves_done st mid title rm now h⟩

/-- Witness for C10 on a mission driven to done by a step-2 DONE event: an
emit at step 99 is accepted, advances currentStep to 99 past the schedule,
and status stays done; a subsequent tick also leaves it done. -/
theorem c10_emit_ignores_done_status_witness :
    (emitEvent (emitEvent (startMission emptyStore "M" .scripted 0).1 0 2
        .Planner .DONE "d" "p" 1).1 0 99 .Critic .NOTE "late" "p" 50).2
      = .ok false ∧
    (∃ m2, findMission (emitEvent (emitEvent (startMission emptyStore "M"
        .scripted 0).1 0 2 .Planner .DONE "d" "p" 1).1 0 99 .Critic .NOTE
        "late" "p" 50).1 0 = some m2 ∧ m2.currentStep = 99 ∧
        m2.status = .done) ∧
    statusOf (tick (emitEvent (startMission emptyStore "M" .scripted 0).1 0 2
        .Planner .DONE "d" "p" 1).1 0 none 60).1 0 = some .done := by
  have hA := c10_emit_ignores_done_status.1
    (emitEvent (startMission emptyStore "M" .scripted 0).1 0 2 .Planner .DONE
      "d" "p" 1).1 0
    ⟨0, "M", .done, 2, 0, 1, none, none, none, none, some .scripted⟩
    99 .Critic .NOTE "late" "p" 50
    (by decide) (by decide) (by decide) (by decide) (by decide) (by decide)
  have hB := (c10_emit_ignores_done_status.2
    (emitEvent (startMission emptyStore "M" .scripted 0).1 0 2 .Planner .DONE
      "d" "p" 1).1 0 (by decide)).2.1 0 none 60
  exact ⟨hA.1, hA.2.2, hB⟩

/-- The schedule length is 17. -/
theorem getTotalSteps_eq : getTotalSteps = 17 := rfl

/-- Every step from 1 to 17 has a schedule row, whose kind is DONE exactly
at step 17. -/
theorem schedule_total (n : Int) (h1 : 1 ≤ n) (h2 : n ≤ 17) :
    ∃ sched, getScheduleForStep n = some sched ∧ (sched.type = .DONE ↔ n = 17) := by
  interval_cases n <;> exact ⟨_, rfl, by decide⟩

/-- Invariant of the fresh-mission tick run after k calls: mission 0 is
running at currentStep k+1, k+1 events are stored and every stored step is
at most k+1. -/
def freshRunInv (st : Store) (k : Nat) : Prop :=
  (∃ m, findMission st 0 = some m ∧ m.status = .running ∧
    m.currentStep = ((k + 1 : Nat) : Int)) ∧
  st.events.length = k + 1 ∧
  (∀ e ∈ st.events, e.step ≤ ((k + 1 : Nat) : Int))

/-- One tick under the fresh-run invariant: the mission advances to step
k+2, turning done exactly on the 16th call, and exactly one event is
appended. -/
theorem freshRun_tick (st : Store) (k : Nat) (now : Nat) (hk : k ≤ 15)
    (h : freshRunInv st k) :
    (∃ m, findMission (tick st 0 none now).1 0 = some m ∧
      m.status = (if k = 15 then .done else .running) ∧
      m.currentStep = ((k + 2 : Nat) : Int)) ∧
    (tick st 0 none now).1.events.length = k + 2 ∧
    (∀ e ∈ (tick st 0 none now).1.events, e.step ≤ ((k + 2 : Nat) : Int)) := by
  obtain ⟨⟨m, hm, hrun, hcs⟩, hlen, hbound⟩ := h
  have hle : ¬ getTotalSteps < m.currentStep + 1 := by
    rw [getTotalSteps_eq, hcs]
    push_cast
    omega
  obtain ⟨sched, hsch, hdone_iff⟩ := schedule_total (m.currentStep + 1)
    (by rw [hcs]; push_cast; omega) (by rw [hcs]; push_cast; omega)
  have hfe : findEvent st 0 (m.currentStep + 1) = none := by
    apply List.find?_eq_none.mpr
    intro e he
    have hb := hbound e he
    simp only [Bool.and_eq_true, beq_iff_eq, not_and]
    intro _
    rw [hcs]
    push_cast
    push_cast at hb
    omega
  have hmid : m.id = 0 := by
    simpa using List.find?_some
      (show st.missions.find? (fun x => x.id == 0) = some m from hm)
  have hns : ¬ (m.currentStep + 1 = 17) ∨ k = 15 := by
    by_cases hc : k = 15
    · exact .inr hc
    · left
      rw [hcs]
      push_cast
      omega
  rw [tick_insert hm hrun hle hsch hfe]
  refine ⟨⟨tickMissionUpdate m none sched (m.currentStep + 1) now, ?_, ?_, ?_⟩, ?_, ?_⟩
  · simp only [findMission]
    refine (find?_map_update_eq st.missions 0 _ (by exact hmid)).trans ?_
    rw [show st.missions.find? (fun x => x.id == 0) = some m from hm]
    rfl
  · show (if (sched.type == EventType.DONE || isFinalStep (m.currentStep + 1)) = true
      then MissionStatus.done else m.status) = _
    by_cases hc : k = 15
    · have h17 : m.currentStep + 1 = 17 := by
        rw [hcs, hc]
        norm_num
      rw [if_pos (by simp [hdone_iff.mpr h17]), if_pos hc]
    · have h17 : ¬ (m.currentStep + 1 = 17) := by
        rw [hcs]
        push_cast
        omega
      have hd : (sched.type == EventType.DONE) = false := by
        simp only [beq_eq_false_iff_ne, ne_eq]
        intro hdd
        exact h17 (hdone_iff.mp hdd)
      have hf : isFinalStep (m.currentStep + 1) = false := by
        rw [← Bool.not_eq_true]
        simp only [isFinalStep_iff]
        exact h17
      rw [if_neg (by simp [hd, hf]), if_neg hc]
      exact hrun
  · show m.currentStep + 1 = _
    rw [hcs]
    push_cast
    omega
  · show (st.events ++ [tickEventDoc st 0 none sched (m.currentStep + 1) now]).length = _
    simp [hlen]
  · intro e he
    rcases List.mem_append.mp he with he' | he'
    · have := hbound e he'
      push_cast at *
      omega
    · simp only [List.mem_singleton] at he'
      subst he'
      show m.currentStep + 1 ≤ _
      rw [hcs]
      push_cast
      omega

/-- A freshly started mission satisfies the run invariant at k = 0. -/
theorem freshRun_base (title : String) (t0 : Nat) :
    freshRunInv (startMission emptyStore title .scripted t0).1 0 := by
  refine ⟨⟨⟨0, title, .running, 1, t0, t0, none, none, none, none, some .scripted⟩,
    ?_, rfl, rfl⟩, rfl, ?_⟩
  · rfl
  · intro e he
    simp only [startMission, emptyStore, List.nil_append,
      List.mem_singleton] at he
    subst he
    show (1 : Int) ≤ ((0 + 1 : Nat) : Int)
    norm_num

/-- The run invariant holds after every k of the first 16 tick calls. -/
theorem freshRun_inv_all (title : String) (t0 : Nat) (ts : Nat → Nat) :
    ∀ k, k ≤ 15 →
      freshRunInv (tickRun (startMission emptyStore title .scripted t0).1 0 ts k) k := by
  intro k
  induction k with
  | zero => exact fun _ => freshRun_base title t0
  | succ n ih =>
    intro hn
    have h := freshRun_tick _ n (ts n) (by omega) (ih (by omega))
    obtain ⟨⟨m, hm, hst, hcs⟩, hlen, hbound⟩ := h
    refine ⟨⟨m, hm, ?_, ?_⟩, ?_, ?_⟩
    · rw [hst, if_neg (by omega)]
    · rw [hcs]
    · rw [show n + 1 + 1 = n + 2 from rfl]
      exact hlen
    · intro e he
      have := hbound e he
      push_cast at *
      omega

/-- C4: from a freshly started mission (running, currentStep 1, step-1 event
seeded) with arbitrary title and call clock, repeated tick calls with
fallback content advance exactly one step and one stored event per call,
reach status done with currentStep 17 after exactly 16 calls, and every
further tick call mutates nothing and reports status done. -/
theorem c4_sixteen_ticks_reach_done (title : String) (t0 : Nat) (ts : Nat → Nat) :
    (∀ k, k < 16 →
      ∃ m, findMission (tickRun (startMission emptyStore title .scripted t0).1
          0 ts k) 0 = some m ∧
        m.status = .running ∧ m.currentStep = ((k + 1 : Nat) : Int) ∧
        (tickRun (startMission emptyStore title .scripted t0).1 0 ts k).events.length
          = k + 1) ∧
    (∃ m, findMission (tickRun (startMission emptyStore title .scripted t0).1
        0 ts 16) 0 = some m ∧
      m.status = .done ∧ m.currentStep = 17 ∧
      (tickRun (startMission emptyStore title .scripted t0).1 0 ts 16).events.length
        = 17) ∧
    (∀ now, tick (tickRun (startMission emptyStore title .scripted t0).1 0 ts 16)
        0 none now
      = (tickRun (startMission emptyStore title .scripted t0).1 0 ts 16,
         .statusOnly .done)) := by
  have hrun16 : tickRun (startMission emptyStore title .scripted t0).1 0 ts 16
      = (tick (tickRun (startMission emptyStore title .scripted t0).1 0 ts 15)
          0 none (ts 15)).1 := rfl
  rw [hrun16]
  have h16 := freshRun_tick _ 15 (ts 15) (le_refl 15)
    (freshRun_inv_all title t0 ts 15 (le_refl 15))
  obtain ⟨⟨m16, hm16, hst16, hcs16⟩, hlen16, _⟩ := h16
  rw [if_pos rfl] at hst16
  have hdone16 : m16.status = .done := hst16
  refine ⟨?_, ⟨m16, hm16, hdone16, by rw [hcs16]; norm_num, hlen16⟩, ?_⟩
  · intro k hk
    obtain ⟨⟨m, hm, hst, hcs⟩, hlen, _⟩ :=
      freshRun_inv_all title t0 ts k (by omega)
    exact ⟨m, hm, hst, hcs, hlen⟩
  · intro now
    have heq := @tick_terminal _ _ none now _ hm16 (by rw [hdone16]; decide)
    rw [heq, hdone16]

/-- Witness for C4 with a concrete title and clock. -/
theorem c4_sixteen_ticks_reach_done_witness :
    (3 < 16) ∧
    (∃ m, findMission (tickRun (startMission emptyStore "AI Trends Research Mission"
        .scripted 0).1 0 (fun k => k + 1) 3) 0 = some m ∧
      m.status = .running ∧ m.currentStep = ((3 + 1 : Nat) : Int) ∧
      (tickRun (startMission emptyStore "AI Trends Research Mission" .scripted 0).1
        0 (fun k => k + 1) 3).events.length = 3 + 1) ∧
    (∃ m, findMission (tickRun (startMission emptyStore "AI Trends Research Mission"
        .scripted 0).1 0 (fun k => k + 1) 16) 0 = some m ∧
      m.status = .done ∧ m.currentStep = 17 ∧
      (tickRun (startMission emptyStore "AI Trends Research Mission" .scripted 0).1
        0 (fun k => k + 1) 16).events.length = 17) := by
  have h := c4_sixteen_ticks_reach_done "AI Trends Research Mission" 0 (fun k => k + 1)
  exact ⟨by decide, h.1 3 (by decide), h.2.1⟩

/-- C7: whenever tick appends an event at step N, the appended event carries
exactly the Step Schedule (agent, kind) entry for N, whichever collaborator
(generator or fallback) supplied the text; and the fallback table itself is
allowed to disagree with the schedule -- its step-9 row names a different
agent than the schedule row. -/
theorem c7_tick_agent_kind_from_schedule :
    (∀ st mid m (g : Option LLMGeneratedEvent) now sched,
      findMission st mid = some m → m.status = .running →
      getScheduleForStep (m.currentStep + 1) = some sched →
      findEvent st mid (m.currentStep + 1) = none →
      ∃ ev, (tick st mid g now).2 = .stepResult (m.currentStep + 1)
          (tickContent g sched (m.currentStep + 1)).2.2.2 ev ∧
        ev.agent = sched.agent ∧ ev.type = sched.type ∧
        ev.step = m.currentStep + 1) ∧
    (∃ d ∈ demoScript, ∃ sch, getScheduleForStep d.step = some sch ∧
      d.agent ≠ sch.agent) := by
  constructor
  · intro st mid m g now sched hm hrun hsch hfe
    have hle : ¬ getTotalSteps < m.currentStep + 1 := by
      rw [getTotalSteps_eq]
      have := (schedule_step_bounds hsch).2.2
      omega
    rw [tick_insert hm hrun hle hsch hfe]
    exact ⟨tickEventDoc st mid g sched (m.currentStep + 1) now, rfl, rfl, rfl, rfl⟩
  · decide

/-- Witness for C7 on a fresh mission, with generated content supplied. -/
theorem c7_tick_agent_kind_from_schedule_witness :
    (∃ ev, (tick (startMission emptyStore "M" .scripted 0).1 0
        (some ⟨"generated text", "gp", none⟩) 9).2
      = .stepResult 2 (tickContent (some ⟨"generated text", "gp", none⟩)
          ⟨2, .Planner, .ASSIGN⟩ 2).2.2.2 ev ∧
      ev.agent = AgentType.Planner ∧ ev.type = EventType.ASSIGN ∧
      ev.step = 2) := by
  have h := c7_tick_agent_kind_from_schedule.1
    (startMission emptyStore "M" .scripted 0).1 0
    ⟨0, "M", .running, 1, 0, 0, none, none, none, none, some .scripted⟩
    (some ⟨"generated text", "gp", none⟩) 9 ⟨2, .Planner, .ASSIGN⟩
    (by decide) (by decide) (by decide) (by decide)
  exact h

section ReplayLemmas

/-- The last-checkpoint index points inside the snapshot. -/
theorem lastCheckpointIndex_lt {l : List MissionEvent} {i : Nat}
    (h : lastCheckpointIndex l = some i) : i < l.length := by
  unfold lastCheckpointIndex at h
  rcases hlast : (l.enum.filter (fun p => p.2.type == .CHECKPOINT)).getLast? with _ | p
  · rw [hlast] at h
    simp at h
  · rw [hlast] at h
    simp only [Option.map_some', Option.some.injEq] at h
    subst h
    exact List.fst_lt_of_mem_enum (List.mem_of_mem_filter (getLast?_mem_self hlast))

/-- Iterating the replay interval on a finished replay changes nothing. -/
theorem replayIter_finished (n : Nat) (rs : ReplayState)
    (h : rs.replayFinished = true) : replayIter n rs = rs := by
  induction n with
  | zero => rfl
  | succ k ih =>
    show replayIter k (replayTick rs) = rs
    unfold replayTick
    rw [if_pos h]
    exact ih

/-- One firing from an unfinished state with the revealed prefix matching
the index: advance or, past the end, set the finished flag. -/
theorem replayTick_eq (l : List MissionEvent) (s : Nat) (fromCp : Bool) :
    replayTick ⟨l, s, l.take s, false, fromCp⟩ =
      if l.length < s + 1 then ⟨l, s, l.take s, true, fromCp⟩
      else ⟨l, s + 1, l.take (s + 1), false, fromCp⟩ := by
  simp only [replayTick]
  rfl

/-- Closed form of the replay iteration from an unfinished state with the
revealed prefix matching the index: the index and the revealed prefix grow
one event per firing until the snapshot is exhausted, then the finished
flag is set with everything revealed. -/
theorem replayIter_spec (l : List MissionEvent) (fromCp : Bool) :
    ∀ k s, s ≤ l.length →
      replayIter k ⟨l, s, l.take s, false, fromCp⟩ =
        if s + k ≤ l.length then ⟨l, s + k, l.take (s + k), false, fromCp⟩
        else ⟨l, l.length, l.take l.length, true, fromCp⟩ := by
  intro k
  induction k with
  | zero =>
    intro s hs
    rw [if_pos (by omega)]
    rfl
  | succ n ih =>
    intro s hs
    show replayIter n (replayTick ⟨l, s, l.take s, false, fromCp⟩) = _
    rw [replayTick_eq]
    by_cases hc : l.length < s + 1
    · rw [if_pos hc]
      have hseq : s = l.length := by omega
      rw [replayIter_finished n _ rfl]
      rw [if_neg (by omega)]
      subst hseq
      rfl
    · rw [if_neg hc]
      rw [ih (s + 1) (by omega)]
      have harith : s + 1 + n = s + (n + 1) := by omega
      rw [harith]

end ReplayLemmas

/-- C8: replay over a captured nonempty snapshot starts at offset 0 when the
from-checkpoint flag is unset or no checkpoint exists, and at the index of
the most recent checkpoint-kind event otherwise; each firing reveals the
snapshot as a growing prefix in snapshot order until all events are
revealed and the finished flag is set; restart re-enters at the configured
start offset; and the snapshot itself is never created, mutated or deleted
by any number of firings. -/
theorem c8_replay_progressive_disclosure (l : List MissionEvent) (fromCp : Bool)
    (hne : l ≠ []) :
    ∃ rs, startReplay l fromCp = some rs ∧
      rs.replayFinished = false ∧
      rs.visible = l.take rs.replayIndex ∧
      ((fromCp = false ∨ lastCheckpointIndex l = none) → rs.replayIndex = 0) ∧
      (∀ i, fromCp = true → lastCheckpointIndex l = some i → rs.replayIndex = i) ∧
      (∀ k, (replayIter k rs).replayEvents = l) ∧
      (∀ k, (replayIter k rs).visible
        = l.take (min (rs.replayIndex + k) l.length)) ∧
      (replayIter (l.length - rs.replayIndex + 1) rs).replayFinished = true ∧
      (replayIter (l.length - rs.replayIndex + 1) rs).visible = l ∧
      (∀ k, restartReplay (replayIter k rs) = startReplay l fromCp) := by
  have hs : (if fromCp then (lastCheckpointIndex l).getD 0 else 0) ≤ l.length := by
    split
    · rcases hlc : lastCheckpointIndex l with _ | i
      · simp
      · simpa using (lastCheckpointIndex_lt hlc).le
    · exact Nat.zero_le _
  have hstart : startReplay l fromCp
      = some ⟨l, if fromCp then (lastCheckpointIndex l).getD 0 else 0,
          l.take (if fromCp then (lastCheckpointIndex l).getD 0 else 0),
          false, fromCp⟩ := by
    unfold startReplay
    rw [if_neg (by simpa [List.isEmpty_iff] using hne)]
  refine ⟨_, hstart, rfl, rfl, ?_, ?_, ?_, ?_, ?_, ?_, ?_⟩
  · rintro (rfl | hnone)
    · simp
    · split <;> simp [hnone]
  · rintro i rfl hlc
    simp [hlc]
  · intro k
    rw [replayIter_spec l fromCp k _ hs, apply_ite ReplayState.replayEvents]
    simp
  · intro k
    dsimp only
    rw [replayIter_spec l fromCp k _ hs, apply_ite ReplayState.visible]
    by_cases hck : (if fromCp = true then (lastCheckpointIndex l).getD 0 else 0) + k
        ≤ l.length
    · rw [if_pos hck, min_eq_left hck]
    · rw [if_neg hck, min_eq_right (by omega)]
  · dsimp only
    rw [replayIter_spec l fromCp _ _ hs, if_neg (by omega)]
  · dsimp only
    rw [replayIter_spec l fromCp _ _ hs, if_neg (by omega)]
    exact List.take_length l
  · intro k
    rw [replayIter_spec l fromCp k _ hs, apply_ite restartReplay]
    simp [restartReplay]

/-- Witness for C8 on a concrete two-event snapshot whose second event is a
checkpoint, replayed from the last checkpoint. -/
theorem c8_replay_progressive_disclosure_witness :
    ([(⟨1, 0, 5, 1, .Planner, .PLAN, "a", "p", none⟩ : MissionEvent),
      ⟨2, 0, 6, 6, .Planner, .CHECKPOINT, "c", "p", none⟩] ≠ []) ∧
    (∃ rs, startReplay [(⟨1, 0, 5, 1, .Planner, .PLAN, "a", "p", none⟩ : MissionEvent),
        ⟨2, 0, 6, 6, .Planner, .CHECKPOINT, "c", "p", none⟩] true = some rs ∧
      rs.replayFinished = false ∧
      rs.visible = [(⟨1, 0, 5, 1, .Planner, .PLAN, "a", "p", none⟩ : MissionEvent),
        ⟨2, 0, 6, 6, .Planner, .CHECKPOINT, "c", "p", none⟩].take rs.replayIndex ∧
      ((true = false ∨ lastCheckpointIndex [(⟨1, 0, 5, 1, .Planner, .PLAN, "a", "p",
            none⟩ : MissionEvent),
          ⟨2, 0, 6, 6, .Planner, .CHECKPOINT, "c", "p", none⟩] = none) →
        rs.replayIndex = 0) ∧
      (∀ i, true = true → lastCheckpointIndex [(⟨1, 0, 5, 1, .Planner, .PLAN, "a",
            "p", none⟩ : MissionEvent),
          ⟨2, 0, 6, 6, .Planner, .CHECKPOINT, "c", "p", none⟩] = some i →
        rs.replayIndex = i) ∧
      (∀ k, (replayIter k rs).replayEvents
        = [(⟨1, 0, 5, 1, .Planner, .PLAN, "a", "p", none⟩ : MissionEvent),
           ⟨2, 0, 6, 6, .Planner, .CHECKPOINT, "c", "p", none⟩]) ∧
      (∀ k, (replayIter k rs).visible
        = [(⟨1, 0, 5, 1, .Planner, .PLAN, "a", "p", none⟩ : MissionEvent),
           ⟨2, 0, 6, 6, .Planner, .CHECKPOINT, "c", "p", none⟩].take
            (min (rs.replayIndex + k)
              [(⟨1, 0, 5, 1, .Planner, .PLAN, "a", "p", none⟩ : MissionEvent),
               ⟨2, 0, 6, 6, .Planner, .CHECKPOINT, "c", "p", none⟩].length)) ∧
      (replayIter ([(⟨1, 0, 5, 1, .Planner, .PLAN, "a", "p", none⟩ : MissionEvent),
          ⟨2, 0, 6, 6, .Planner, .CHECKPOINT, "c", "p", none⟩].length
          - rs.replayIndex + 1) rs).replayFinished = true ∧
      (replayIter ([(⟨1, 0, 5, 1, .Planner, .PLAN, "a", "p", none⟩ : MissionEvent),
          ⟨2, 0, 6, 6, .Planner, .CHECKPOINT, "c", "p", none⟩].length
          - rs.replayIndex + 1) rs).visible
        = [(⟨1, 0, 5, 1, .Planner, .PLAN, "a", "p", none⟩ : MissionEvent),
           ⟨2, 0, 6, 6, .Planner, .CHECKPOINT, "c", "p", none⟩] ∧
      (∀ k, restartReplay (replayIter k rs)
        = startReplay [(⟨1, 0, 5, 1, .Planner, .PLAN, "a", "p", none⟩ : MissionEvent),
            ⟨2, 0, 6, 6, .Planner, .CHECKPOINT, "c", "p", none⟩] true)) :=
  ⟨by decide, c8_replay_progressive_disclosure _ true (by decide)⟩

section ForkFacts

/-- After a successful fork the new mission id resolves to the new mission
document. -/
theorem fork_find_new {st : Store} {pid : Nat} {fs : Int} {now : Nat}
    {parent : Mission} {lastEv : MissionEvent}
    (hv : ¬ fs < 1) (hm : findMission st pid = some parent)
    (hfreshM : ∀ m ∈ st.missions, m.id ≠ st.nextId)
    (hlast : (sortByStep (st.events.filter
      (fun e => e.missionId == pid && decide (e.step ≤ fs)))).getLast? = some lastEv) :
    findMission (fork st pid fs now).1 st.nextId
      = some (forkNewMission st parent (sortByStep (st.events.filter
          (fun e => e.missionId == pid && decide (e.step ≤ fs)))) lastEv.step pid now) := by
  rw [fork_success hv hm hlast]
  simp only [findMission]
  rw [find?_append_none (List.find?_eq_none.mpr
    (fun m hm2 => by simpa using hfreshM m hm2))]
  exact List.find?_cons_of_pos _ (by simp [forkNewMission])

/-- The parent mission id is not the fresh id when mission ids are fresh. -/
theorem fork_parent_id_ne {st : Store} {pid : Nat} {parent : Mission}
    (hm : findMission st pid = some parent)
    (hfreshM : ∀ m ∈ st.missions, m.id ≠ st.nextId) : pid ≠ st.nextId := by
  have hmem : parent ∈ st.missions := List.mem_of_find?_eq_some hm
  have hpid : parent.id = pid := by
    simpa using List.find?_some
      (show st.missions.find? (fun x => x.id == pid) = some parent from hm)
  rw [← hpid]
  exact hfreshM parent hmem

end ForkFacts

/-- C5: a fork whose parent holds at least one event at or before forkStep
succeeds, silently clamping the branch step down to the maximum persisted
step at or before forkStep; the new mission log consists of exactly those
parent events in ascending step order, per-field identical in step, agent,
kind, summary, payload and timestamp but under fresh identities and the new
mission id, and the parent log is untouched; with no such event the fork
fails as NotForkable and creates nothing. -/
theorem c5_fork_copies_prefix_and_clamps :
    (∀ st pid fs now parent lastEv,
      1 ≤ fs → findMission st pid = some parent →
      (∀ m ∈ st.missions, m.id ≠ st.nextId) →
      (∀ e ∈ st.events, e.missionId ≠ st.nextId) →
      (sortByStep (st.events.filter
        (fun e => e.missionId == pid && decide (e.step ≤ fs)))).getLast?
          = some lastEv →
      (fork st pid fs now).2 = .ok st.nextId ∧
      (∃ nm, findMission (fork st pid fs now).1 st.nextId = some nm ∧
        nm.branchFromStep = some lastEv.step) ∧
      (∀ e ∈ st.events.filter
          (fun e => e.missionId == pid && decide (e.step ≤ fs)),
        e.step ≤ lastEv.step) ∧
      lastEv ∈ st.events.filter
        (fun e => e.missionId == pid && decide (e.step ≤ fs)) ∧
      ((fork st pid fs now).1.events.filter
          (fun e => e.missionId == st.nextId)).map eventContent
        = (sortByStep (st.events.filter
            (fun e => e.missionId == pid && decide (e.step ≤ fs)))).map eventContent ∧
      (∀ e ∈ (fork st pid fs now).1.events.filter
          (fun e => e.missionId == st.nextId), st.nextId < e.id) ∧
      (fork st pid fs now).1.events.filter (fun e => e.missionId == pid)
        = st.events.filter (fun e => e.missionId == pid)) ∧
    (∀ st pid fs now parent,
      1 ≤ fs → findMission st pid = some parent →
      st.events.filter (fun e => e.missionId == pid && decide (e.step ≤ fs)) = [] →
      fork st pid fs now = (st, .notForkable)) := by
  constructor
  · intro st pid fs now parent lastEv hfs hm hfreshM hfreshE hlast
    have hv : ¬ fs < 1 := by omega
    have hsorted := sortByStep_sorted (st.events.filter
      (fun e => e.missionId == pid && decide (e.step ≤ fs)))
    have hperm := sortByStep_perm (st.events.filter
      (fun e => e.missionId == pid && decide (e.step ≤ fs)))
    have hmax := getLast_step_max hsorted hlast
    have hfilterNew : (fork st pid fs now).1.events.filter
        (fun e => e.missionId == st.nextId)
        = copyEvents (st.nextId + 1) st.nextId (sortByStep (st.events.filter
            (fun e => e.missionId == pid && decide (e.step ≤ fs)))) := by
      rw [fork_success hv hm hlast]
      show (st.events ++ _).filter _ = _
      rw [List.filter_append]
      rw [List.filter_eq_nil_iff.mpr (fun e he => by simpa using hfreshE e he)]
      rw [List.nil_append]
      apply List.filter_eq_self.mpr
      intro e he
      have := (copyEvents_fields _ _ _ e he).1
      simpa using this
    refine ⟨?_, ?_, ?_, ?_, ?_, ?_, ?_⟩
    · rw [fork_success hv hm hlast]
    · exact ⟨_, fork_find_new hv hm hfreshM hlast, rfl⟩
    · intro e he
      exact hmax e (hperm.mem_iff.mpr he)
    · exact hperm.mem_iff.mp (getLast?_mem_self hlast)
    · rw [hfilterNew, copyEvents_content]
    · intro e he
      rw [hfilterNew] at he
      have := (copyEvents_fields _ _ _ e he).2
      omega
    · rw [fork_success hv hm hlast]
      show (st.events ++ _).filter _ = _
      rw [List.filter_append]
      have hne := fork_parent_id_ne hm hfreshM
      have hcopynil : (copyEvents (st.nextId + 1) st.nextId
          (sortByStep (st.events.filter
            (fun e => e.missionId == pid && decide (e.step ≤ fs))))).filter
          (fun e => e.missionId == pid) = [] := by
        apply List.filter_eq_nil_iff.mpr
        intro e he
        have hmid := (copyEvents_fields _ _ _ e he).1
        simp [hmid]
        exact fun hc => hne hc.symm
      rw [hcopynil, List.append_nil]
  · intro st pid fs now parent hfs hm hF
    have hv : ¬ fs < 1 := by omega
    have hlast : (sortByStep (st.events.filter
        (fun e => e.missionId == pid && decide (e.step ≤ fs)))).getLast? = none := by
      rw [hF]
      rfl
    exact fork_not_forkable hv hm hlast

/-- Witness for C5: the documented scenario -- a mission carrying a step-13
checkpoint, forked at step 20, clamps to 13 and copies the prefix. -/
theorem c5_fork_copies_prefix_and_clamps_witness :
    ((1 : Int) ≤ 20) ∧
    (fork (emitEvent (startMission emptyStore "M" .scripted 0).1 0 13 .Planner
        .CHECKPOINT "cp13" "p" 1).1 0 20 9).2 = .ok 3 ∧
    (∃ nm, findMission (fork (emitEvent (startMission emptyStore "M" .scripted 0).1
        0 13 .Planner .CHECKPOINT "cp13" "p" 1).1 0 20 9).1 3 = some nm ∧
      nm.branchFromStep = some 13) ∧
    ((fork (emitEvent (startMission emptyStore "M" .scripted 0).1 0 13 .Planner
        .CHECKPOINT "cp13" "p" 1).1 0 20 9).1.events.filter
        (fun e => e.missionId == 3)).map eventContent
      = (sortByStep ((emitEvent (startMission emptyStore "M" .scripted 0).1 0 13
          .Planner .CHECKPOINT "cp13" "p" 1).1.events.filter
          (fun e => e.missionId == 0 && decide (e.step ≤ 20)))).map eventContent := by
  have h := c5_fork_copies_prefix_and_clamps.1
    (emitEvent (startMission emptyStore "M" .scripted 0).1 0 13 .Planner
      .CHECKPOINT "cp13" "p" 1).1 0 20 9
    ⟨0, "M", .running, 13, 0, 1, some 1, some "cp13", none, none, some .scripted⟩
    ⟨2, 0, 1, 13, .Planner, .CHECKPOINT, "cp13", "p", none⟩
    (by decide) (by decide) (by decide) (by decide) (by decide)
  exact ⟨by decide, h.1, h.2.1, h.2.2.2.2.1⟩

/-- C6 counterexample: fork a mission holding a step-6 checkpoint at step 3.
The copied prefix (the step-1 event alone) contains no checkpoint and its
fold carries no latest summary, yet the new mission inherits the parent
cached latest summary instead of leaving the artifact absent -- so the new
aggregate is not fold(copiedEvents). -/
theorem c6_counterexample_fork_inherits_parent_artifact :
    ((findMission (fork (emitEvent (startMission emptyStore "M" .scripted 0).1 0 6
        .Planner .CHECKPOINT "X" "p" 1).1 0 3 5).1 3).map (fun m => m.latestSummary)
      = some (some "X")) ∧
    ((sortByStep ((emitEvent (startMission emptyStore "M" .scripted 0).1 0 6
        .Planner .CHECKPOINT "X" "p" 1).1.events.filter
        (fun e => e.missionId == 0 && decide (e.step ≤ 3)))).filter
        (fun e => e.type == .CHECKPOINT) = []) ∧
    (foldAgg (sortByStep ((emitEvent (startMission emptyStore "M" .scripted 0).1 0 6
        .Planner .CHECKPOINT "X" "p" 1).1.events.filter
        (fun e => e.missionId == 0 && decide (e.step ≤ 3))))).latestSummary
      = none := by decide

/-- C6 amended: a successful fork forces status running regardless of the
parent status, sets lineage to the parent id and the clamped branch step,
and its currentStep and lastCheckpointAt agree with fold(copiedEvents);
artifacts.latestSummary agrees with the fold whenever the copied prefix
holds a checkpoint with a nonempty summary, but when the prefix holds no
checkpoint it is not absent: it inherits the parent cached latest summary. -/
theorem c6_fork_aggregate_with_artifact_fallback
    (st : Store) (pid : Nat) (fs : Int) (now : Nat) (parent : Mission)
    (lastEv : MissionEvent)
    (hfs : 1 ≤ fs) (hm : findMission st pid = some parent)
    (hfreshM : ∀ m ∈ st.missions, m.id ≠ st.nextId)
    (hpos : ∀ e ∈ st.events.filter
      (fun e => e.missionId == pid && decide (e.step ≤ fs)), 1 ≤ e.step)
    (hlast : (sortByStep (st.events.filter
      (fun e => e.missionId == pid && decide (e.step ≤ fs)))).getLast?
        = some lastEv) :
    ∃ nm, findMission (fork st pid fs now).1 st.nextId = some nm ∧
      nm.status = .running ∧
      nm.branchFromMissionId = some pid ∧
      nm.branchFromStep = some lastEv.step ∧
      nm.currentStep = (foldAgg (sortByStep (st.events.filter
        (fun e => e.missionId == pid && decide (e.step ≤ fs))))).currentStep ∧
      nm.lastCheckpointAt = (foldAgg (sortByStep (st.events.filter
        (fun e => e.missionId == pid && decide (e.step ≤ fs))))).lastCheckpointAt ∧
      (((sortByStep (st.events.filter
          (fun e => e.missionId == pid && decide (e.step ≤ fs)))).filter
          (fun e => e.type == .CHECKPOINT)) = [] →
        nm.latestSummary = parent.latestSummary) ∧
      (∀ c, ((sortByStep (st.events.filter
          (fun e => e.missionId == pid && decide (e.step ≤ fs)))).filter
          (fun e => e.type == .CHECKPOINT)).getLast? = some c →
        ¬ c.summary = "" →
        nm.latestSummary = (foldAgg (sortByStep (st.events.filter
          (fun e => e.missionId == pid && decide (e.step ≤ fs))))).latestSummary) := by
  have hv : ¬ fs < 1 := by omega
  have hsorted := sortByStep_sorted (st.events.filter
    (fun e => e.missionId == pid && decide (e.step ≤ fs)))
  have hperm := sortByStep_perm (st.events.filter
    (fun e => e.missionId == pid && decide (e.step ≤ fs)))
  have hmax := getLast_step_max hsorted hlast
  have hlastMem := getLast?_mem_self hlast
  have hposS : ∀ e ∈ sortByStep (st.events.filter
      (fun e => e.missionId == pid && decide (e.step ≤ fs))), 1 ≤ e.step :=
    fun e he => hpos e (hperm.mem_iff.mp he)
  refine ⟨_, fork_find_new hv hm hfreshM hlast, rfl, rfl, rfl, ?_, ?_, ?_, ?_⟩
  · show lastEv.step = _
    have h1 : lastEv.step ≤ (foldAgg (sortByStep (st.events.filter
        (fun e => e.missionId == pid && decide (e.step ≤ fs))))).currentStep :=
      (foldl_applyEvent_currentStep_ge _ initAgg).2 lastEv hlastMem
    rcases foldl_applyEvent_currentStep_mem (sortByStep (st.events.filter
        (fun e => e.missionId == pid && decide (e.step ≤ fs)))) initAgg with h2 | h2
    · exfalso
      have h3 := hposS lastEv hlastMem
      have h4 : (initAgg.currentStep : Int) = 0 := rfl
      rw [show (foldAgg (sortByStep (st.events.filter
        (fun e => e.missionId == pid && decide (e.step ≤ fs))))).currentStep
        = (List.foldl applyEvent initAgg (sortByStep (st.events.filter
          (fun e => e.missionId == pid && decide (e.step ≤ fs))))).currentStep
        from rfl] at h1
      omega
    · obtain ⟨e, he, heq⟩ := h2
      have h5 := hmax e he
      rw [show (foldAgg (sortByStep (st.events.filter
        (fun e => e.missionId == pid && decide (e.step ≤ fs))))).currentStep
        = (List.foldl applyEvent initAgg (sortByStep (st.events.filter
          (fun e => e.missionId == pid && decide (e.step ≤ fs))))).currentStep
        from rfl] at h1 ⊢
      omega
  · show ((sortByStep (st.events.filter
        (fun e => e.missionId == pid && decide (e.step ≤ fs)))).filter
        (fun e => e.type == .CHECKPOINT)).getLast?.map (fun c => c.ts) = _
    rw [show (foldAgg (sortByStep (st.events.filter
        (fun e => e.missionId == pid && decide (e.step ≤ fs))))).lastCheckpointAt
      = (List.foldl applyEvent initAgg (sortByStep (st.events.filter
        (fun e => e.missionId == pid && decide (e.step ≤ fs))))).lastCheckpointAt
      from rfl, foldl_applyEvent_lastCheckpointAt]
    rcases hc : ((sortByStep (st.events.filter
        (fun e => e.missionId == pid && decide (e.step ≤ fs)))).filter
        (fun e => e.type == .CHECKPOINT)).getLast? with _ | c <;> simp [hc, initAgg]
  · intro hnil
    show (match ((sortByStep (st.events.filter
        (fun e => e.missionId == pid && decide (e.step ≤ fs)))).filter
        (fun e => e.type == .CHECKPOINT)).getLast? with
      | some c => if c.summary = "" then parent.latestSummary else some c.summary
      | none => parent.latestSummary) = parent.latestSummary
    rw [hnil]
    rfl
  · intro c hc hce
    show (match ((sortByStep (st.events.filter
        (fun e => e.missionId == pid && decide (e.step ≤ fs)))).filter
        (fun e => e.type == .CHECKPOINT)).getLast? with
      | some c => if c.summary = "" then parent.latestSummary else some c.summary
      | none => parent.latestSummary) = _
    rw [hc]
    rw [show (foldAgg (sortByStep (st.events.filter
        (fun e => e.missionId == pid && decide (e.step ≤ fs))))).latestSummary
      = (List.foldl applyEvent initAgg (sortByStep (st.events.filter
        (fun e => e.missionId == pid && decide (e.step ≤ fs))))).latestSummary
      from rfl, foldl_applyEvent_latestSummary, hc]
    simp [hce]

/-- Witness for C6 as amended, on the step-13-checkpoint fork scenario. -/
theorem c6_fork_aggregate_with_artifact_fallback_witness :
    ∃ nm, findMission (fork (emitEvent (startMission emptyStore "M" .scripted 0).1
        0 13 .Planner .CHECKPOINT "cp13" "p" 1).1 0 20 9).1 3 = some nm ∧
      nm.status = .running ∧
      nm.branchFromMissionId = some 0 ∧
      nm.branchFromStep = some (13 : Int) ∧
      nm.currentStep = (foldAgg (sortByStep ((emitEvent (startMission emptyStore "M"
        .scripted 0).1 0 13 .Planner .CHECKPOINT "cp13" "p" 1).1.events.filter
        (fun e => e.missionId == 0 && decide (e.step ≤ 20))))).currentStep ∧
      nm.lastCheckpointAt = (foldAgg (sortByStep ((emitEvent (startMission emptyStore
        "M" .scripted 0).1 0 13 .Planner .CHECKPOINT "cp13" "p" 1).1.events.filter
        (fun e => e.missionId == 0 && decide (e.step ≤ 20))))).lastCheckpointAt ∧
      (((sortByStep ((emitEvent (startMission emptyStore "M" .scripted 0).1 0 13
          .Planner .CHECKPOINT "cp13" "p" 1).1.events.filter
          (fun e => e.missionId == 0 && decide (e.step ≤ 20)))).filter
          (fun e => e.type == .CHECKPOINT)) = [] →
        nm.latestSummary = (⟨0, "M", .running, 13, 0, 1, some 1, some "cp13", none,
          none, some .scripted⟩ : Mission).latestSummary) ∧
      (∀ c, ((sortByStep ((emitEvent (startMission emptyStore "M" .scripted 0).1 0 13
          .Planner .CHECKPOINT "cp13" "p" 1).1.events.filter
          (fun e => e.missionId == 0 && decide (e.step ≤ 20)))).filter
          (fun e => e.type == .CHECKPOINT)).getLast? = some c →
        ¬ c.summary = "" →
        nm.latestSummary = (foldAgg (sortByStep ((emitEvent (startMission emptyStore
          "M" .scripted 0).1 0 13 .Planner .CHECKPOINT "cp13" "p" 1).1.events.filter
          (fun e => e.missionId == 0 && decide (e.step ≤ 20))))).latestSummary) :=
  c6_fork_aggregate_with_artifact_fallback
    (emitEvent (startMission emptyStore "M" .scripted 0).1 0 13 .Planner
      .CHECKPOINT "cp13" "p" 1).1 0 20 9
    ⟨0, "M", .running, 13, 0, 1, some 1, some "cp13", none, none, some .scripted⟩
    ⟨2, 0, 1, 13, .Planner, .CHECKPOINT, "cp13", "p", none⟩
    (by decide) (by decide) (by decide) (by decide) (by decide)

section CacheConsistency

/-- The key invariant of the projector: the cached aggregate of a mission
equals the fold of its stored event log, and that log is in strictly
ascending step order. -/
def cacheConsistent (st : Store) (mid : Nat) : Prop :=
  match findMission st mid with
  | some m => aggOf m = foldAgg (missionEvents st mid) ∧
      (missionEvents st mid).Pairwise (fun a b => a.step < b.step)
  | none => True

instance cacheConsistentDecidable (st : Store) (mid : Nat) :
    Decidable (cacheConsistent st mid) :=
  match hm : findMission st mid with
  | some m =>
    decidable_of_iff (aggOf m = foldAgg (missionEvents st mid) ∧
        (missionEvents st mid).Pairwise (fun a b => a.step < b.step))
      (by unfold cacheConsistent; rw [hm])
  | none => decidable_of_iff True (by unfold cacheConsistent; rw [hm])

/-- Eliminating the invariant at a resolved mission. -/
theorem cacheConsistent_elim {st : Store} {mid : Nat} {m : Mission}
    (h : cacheConsistent st mid) (hm : findMission st mid = some m) :
    aggOf m = foldAgg (missionEvents st mid) ∧
    (missionEvents st mid).Pairwise (fun a b => a.step < b.step) := by
  unfold cacheConsistent at h
  rw [hm] at h
  exact h

/-- Introducing the invariant at a resolved mission. -/
theorem cacheConsistent_intro {st : Store} {mid : Nat} {m : Mission}
    (hm : findMission st mid = some m)
    (h1 : aggOf m = foldAgg (missionEvents st mid))
    (h2 : (missionEvents st mid).Pairwise (fun a b => a.step < b.step)) :
    cacheConsistent st mid := by
  unfold cacheConsistent
  rw [hm]
  exact ⟨h1, h2⟩

/-- Every stored step of a consistent mission is bounded by its cached
currentStep. -/
theorem cacheConsistent_step_le {st : Store} {mid : Nat} {m : Mission}
    (h : cacheConsistent st mid) (hm : findMission st mid = some m) :
    ∀ e ∈ missionEvents st mid, e.step ≤ m.currentStep := by
  intro e he
  have hb := (foldl_applyEvent_currentStep_ge (missionEvents st mid) initAgg).2 e he
  have hagg := (cacheConsistent_elim h hm).1
  calc e.step ≤ (foldAgg (missionEvents st mid)).currentStep := hb
    _ = m.currentStep := by rw [← hagg]; rfl

/-- A consistent mission holds no event above its cached currentStep, so a
strictly larger step is fresh. -/
theorem cacheConsistent_fresh {st : Store} {mid : Nat} {m : Mission} {step : Int}
    (h : cacheConsistent st mid) (hm : findMission st mid = some m)
    (hcs : m.currentStep < step) : findEvent st mid step = none := by
  apply List.find?_eq_none.mpr
  intro e he
  simp only [Bool.and_eq_true, beq_iff_eq, not_and]
  intro hemid
  have hee : e ∈ missionEvents st mid := List.mem_filter.mpr ⟨he, by simp [hemid]⟩
  have := cacheConsistent_step_le h hm e hee
  intro heq
  omega

/-- The per-append mission update of the emit route agrees with the folding
rule applied to the inserted event, as long as the event advances the step
counter and is not a non-DONE event at the terminal step. -/
theorem emit_update_matches_applyEvent (m : Mission) (eid emid : Nat) (step : Int)
    (a : AgentType) (ty : EventType) (s p : String) (now : Nat)
    (hcs : m.currentStep < step) (hdt : ty = .DONE ∨ isFinalStep step = false) :
    aggOf (emitMissionUpdate m step ty s now)
      = applyEvent (aggOf m) ⟨eid, emid, now, step, a, ty, s, p, none⟩ := by
  unfold aggOf emitMissionUpdate applyEvent
  rw [Agg.mk.injEq]
  refine ⟨?_, ?_, rfl, rfl⟩
  · rcases hdt with rfl | hf
    · simp
    · simp [hf]
  · rw [if_pos hcs, max_eq_right (le_of_lt hcs)]

/-- The per-append mission update of the tick route agrees with the folding
rule applied to the inserted event whenever the generator supplied no
checkpoint artifact override. -/
theorem tick_update_matches_applyEvent (st : Store) (m : Mission) (mid : Nat)
    (g : Option LLMGeneratedEvent) (sched : StepSchedule) (now : Nat)
    (hg : match g with | some gg => gg.artifactUpdate = none | none => True) :
    aggOf (tickMissionUpdate m g sched (m.currentStep + 1) now)
      = applyEvent (aggOf m) (tickEventDoc st mid g sched (m.currentStep + 1) now) := by
  have hart : (tickContent g sched (m.currentStep + 1)).2.2.1 = none := by
    rcases g with _ | gg
    · rcases hd : demoScript.find? (fun d => d.step == m.currentStep + 1) with _ | d
      · simp [tickContent, hd]
      · simp [tickContent, hd]
    · simpa [tickContent] using hg
  unfold aggOf tickMissionUpdate applyEvent tickEventDoc
  rw [Agg.mk.injEq]
  refine ⟨rfl, ?_, rfl, ?_⟩
  · show m.currentStep + 1 = max m.currentStep (m.currentStep + 1)
    rw [max_eq_right (by omega)]
  · rw [hart]
    rfl

end CacheConsistency

/-- C1 counterexample: two checkpoint emits arriving out of step order
(step 13 then step 6).  The cached artifacts hold the later-arriving step-6
summary and timestamp, while the fold of the full history in ascending step
order yields the step-13 summary and timestamp -- the cache neither equals
the fold nor any prefix fold of the ascending history. -/
theorem c1_counterexample_out_of_order_checkpoints :
    ((findMission (emitEvent (emitEvent (startMission emptyStore "M" .scripted 0).1
        0 13 .Planner .CHECKPOINT "A" "x" 1).1 0 6 .Planner .CHECKPOINT "B" "x" 2).1
        0).map (fun m => m.latestSummary) = some (some "B")) ∧
    ((foldAgg (sortByStep (missionEvents (emitEvent (emitEvent (startMission
        emptyStore "M" .scripted 0).1 0 13 .Planner .CHECKPOINT "A" "x" 1).1 0 6
        .Planner .CHECKPOINT "B" "x" 2).1 0))).latestSummary = some "A") ∧
    ¬ ((findMission (emitEvent (emitEvent (startMission emptyStore "M" .scripted 0).1
        0 13 .Planner .CHECKPOINT "A" "x" 1).1 0 6 .Planner .CHECKPOINT "B" "x" 2).1
        0).map aggOf
      = some (foldAgg (sortByStep (missionEvents (emitEvent (emitEvent (startMission
          emptyStore "M" .scripted 0).1 0 13 .Planner .CHECKPOINT "A" "x" 1).1 0 6
          .Planner .CHECKPOINT "B" "x" 2).1 0)))) := by decide

/-- C1 amended: the cache-equals-fold invariant is preserved by every append
that respects the step order: an emit whose step exceeds the cached
currentStep and is not a non-DONE event at the terminal step keeps the
cached aggregate equal to the fold of the (still ascending) full history,
with the new history extending the old by exactly the inserted event (so
before the mission update lands, the stale cache is the fold of a prefix);
and a tick call -- whatever its branch -- preserves the invariant whenever
the generator supplies no checkpoint artifact override.  Out-of-order or
terminal-step emits are exactly the cases the counterexample shows failing. -/
theorem c1_cache_equals_fold_amended :
    (∀ st mid m step a ty (s p : String) now,
      findMission st mid = some m →
      cacheConsistent st mid →
      step ≠ 0 → s ≠ "" →
      m.currentStep < step →
      (ty = .DONE ∨ isFinalStep step = false) →
      cacheConsistent (emitEvent st mid step a ty s p now).1 mid ∧
      missionEvents (emitEvent st mid step a ty s p now).1 mid
        = missionEvents st mid ++ [⟨st.nextId, mid, now, step, a, ty, s, p, none⟩]) ∧
    (∀ st mid (g : Option LLMGeneratedEvent) now,
      (match g with | some gg => gg.artifactUpdate = none | none => True) →
      cacheConsistent st mid →
      cacheConsistent (tick st mid g now).1 mid) := by
  constructor
  · intro st mid m step a ty s p now hm hcc hs0 hsne hcs hdt
    have hv : ¬(step = 0 ∨ s = "") := by
      rintro (h | h)
      · exact hs0 h
      · exact hsne h
    have hfe := cacheConsistent_fresh hcc hm hcs
    have hmid : m.id = mid := by
      simpa using List.find?_some
        (show st.missions.find? (fun x => x.id == mid) = some m from hm)
    obtain ⟨hagg, hpw⟩ := cacheConsistent_elim hcc hm
    have hstep_le := cacheConsistent_step_le hcc hm
    rw [emit_insert hv hm hfe]
    have hme : missionEvents ({ st with
        missions := st.missions.map (fun x =>
          if x.id == mid then emitMissionUpdate m step ty s now else x),
        events := st.events ++ [⟨st.nextId, mid, now, step, a, ty, s, p, none⟩],
        nextId := st.nextId + 1 } : Store) mid
        = missionEvents st mid ++ [⟨st.nextId, mid, now, step, a, ty, s, p, none⟩] := by
      show (st.events ++ _).filter _ = _
      rw [List.filter_append]
      congr 1
      simp
    refine ⟨?_, hme⟩
    apply cacheConsistent_intro (m := emitMissionUpdate m step ty s now)
    · simp only [findMission]
      refine (find?_map_update_eq st.missions mid _ (by exact hmid)).trans ?_
      rw [show st.missions.find? (fun x => x.id == mid) = some m from hm]
      rfl
    · rw [hme]
      rw [show foldAgg (missionEvents st mid
          ++ [⟨st.nextId, mid, now, step, a, ty, s, p, none⟩])
        = applyEvent (foldAgg (missionEvents st mid))
            ⟨st.nextId, mid, now, step, a, ty, s, p, none⟩ from
        List.foldl_append applyEvent initAgg _ _]
      rw [← hagg]
      exact emit_update_matches_applyEvent m st.nextId mid step a ty s p now hcs hdt
    · rw [hme]
      apply List.pairwise_append.mpr
      refine ⟨hpw, by simp, ?_⟩
      intro x hx b hb
      simp only [List.mem_singleton] at hb
      subst hb
      have := hstep_le x hx
      show x.step < step
      omega
  · intro st mid g now hg hcc
    rcases hfm : findMission st mid with _ | m
    · rw [tick_not_found hfm]
      exact hcc
    · by_cases hrun : m.status = .running
      · by_cases hle : getTotalSteps < m.currentStep + 1
        · rw [tick_past_total hfm hrun hle]
          exact hcc
        · rcases hsch : getScheduleForStep (m.currentStep + 1) with _ | sched
          · rw [tick_no_schedule hfm hrun hle hsch]
            exact hcc
          · rcases hfe : findEvent st mid (m.currentStep + 1) with _ | e0
            · obtain ⟨hagg, hpw⟩ := cacheConsistent_elim hcc hfm
              have hstep_le := cacheConsistent_step_le hcc hfm
              have hmid : m.id = mid := by
                simpa using List.find?_some
                  (show st.missions.find? (fun x => x.id == mid) = some m from hfm)
              rw [tick_insert hfm hrun hle hsch hfe]
              have hme : missionEvents ({ st with
                  missions := st.missions.map (fun x =>
                    if x.id == mid then
                      tickMissionUpdate m g sched (m.currentStep + 1) now else x),
                  events := st.events
                    ++ [tickEventDoc st mid g sched (m.currentStep + 1) now],
                  nextId := st.nextId + 1 } : Store) mid
                  = missionEvents st mid
                    ++ [tickEventDoc st mid g sched (m.currentStep + 1) now] := by
                show (st.events ++ _).filter _ = _
                rw [List.filter_append]
                congr 1
                simp [tickEventDoc]
              apply cacheConsistent_intro
                (m := tickMissionUpdate m g sched (m.currentStep + 1) now)
              · simp only [findMission]
                refine (find?_map_update_eq st.missions mid _ (by exact hmid)).trans ?_
                rw [show st.missions.find? (fun x => x.id == mid) = some m from hfm]
                rfl
              · rw [hme]
                rw [show foldAgg (missionEvents st mid
                    ++ [tickEventDoc st mid g sched (m.currentStep + 1) now])
                  = applyEvent (foldAgg (missionEvents st mid))
                      (tickEventDoc st mid g sched (m.currentStep + 1) now) from
                  List.foldl_append applyEvent initAgg _ _]
                rw [← hagg]
                exact tick_update_matches_applyEvent st m mid g sched now hg
              · rw [hme]
                apply List.pairwise_append.mpr
                refine ⟨hpw, by simp, ?_⟩
                intro x hx b hb
                simp only [List.mem_singleton] at hb
                subst hb
                have := hstep_le x hx
                show x.step < m.currentStep + 1
                omega
            · rw [tick_duplicate hfm hrun hle hsch hfe]
              exact hcc
      · rw [tick_terminal hfm hrun]
        exact hcc

/-- Witness for C1 as amended: an in-order emit and a tick on a fresh
mission each preserve the cache-equals-fold invariant. -/
theorem c1_cache_equals_fold_amended_witness :
    cacheConsistent (startMission emptyStore "M" .scripted 0).1 0 ∧
    ((1 : Int) < 2) ∧
    cacheConsistent (emitEvent (startMission emptyStore "M" .scripted 0).1 0 2
      .Planner .ASSIGN "assigned" "p" 1).1 0 ∧
    cacheConsistent (tick (startMission emptyStore "M" .scripted 0).1 0 none 1).1
      0 := by
  have hA := c1_cache_equals_fold_amended.1
    (startMission emptyStore "M" .scripted 0).1 0
    ⟨0, "M", .running, 1, 0, 0, none, none, none, none, some .scripted⟩
    2 .Planner .ASSIGN "assigned" "p" 1
    (by decide) (by decide) (by decide) (by decide) (by decide) (by decide)
  have hB := c1_cache_equals_fold_amended.2
    (startMission emptyStore "M" .scripted 0).1 0 none 1 trivial (by decide)
  exact ⟨by decide, by decide, hA.1, hB⟩
